import Mathlib

/-!
Verification of `src/utils.ts` of the mekko-chart visual.

The utilities are translated into Lean as follows.

* Numbers are modelled as rationals (`ℚ`).  Primitive category values
  (`PrimitiveValue`) are modelled as either a number or the JavaScript
  `undefined` value (`Prim`); comparisons involving `undefined` are `false`,
  matching JavaScript semantics on the number/undefined fragment.
* `DataViewPropertyValue` bounds are modelled by `PropVal`: a number, or
  `other` for any value whose `typeof` is not `"number"`.
* `calcValueDomain` and `getClosestColumnIndex` are pure and are modelled
  directly.  `d3.min`/`d3.max` skip `undefined` accessor results, which is
  modelled by combining `Option` values.
* `transformDomain` derives new objects with `Prototype.inherit` and assigns
  fields on the derived objects; to settle the aliasing and non-mutation
  claims it is modelled against an explicit store of JavaScript objects
  (`Store`), with `Prototype.inherit` modelled as copying allocation (the
  prototype parent is never written during the call, so a copy is
  observationally equivalent to a prototype link).
* `setChosenColumnOpacity` mutates the rendered scene graph; the scene is
  modelled as a list of series, each a list of rect elements carrying the
  bound data point's `categoryIndex`, the current `fill-opacity` style and
  whether the last style update was applied through a transition.
-/

/-- JavaScript primitive category value on the scalar-axis fragment:
a number or `undefined`. -/
inductive Prim where
  | num (n : ℚ)
  | undefined
deriving DecidableEq, Repr

/-- A `DataViewPropertyValue` bound: a number, or any value whose
`typeof` is not `"number"`. -/
inductive PropVal where
  | num (n : ℚ)
  | other
deriving DecidableEq, Repr

/-- The check `typeof v === "number"`. -/
def PropVal.isNum : PropVal → Bool
  | .num _ => true
  | .other => false

/-- JavaScript `a >= b` on the modelled fragment: comparisons with
`undefined` are false. -/
def primGe : Prim → Prim → Bool
  | .num a, .num b => a ≥ b
  | _, _ => false

/-- JavaScript `a <= b` on the modelled fragment. -/
def primLe : Prim → Prim → Bool
  | .num a, .num b => a ≤ b
  | _, _ => false

/-- JavaScript `a > b` on the modelled fragment. -/
def primGt : Prim → Prim → Bool
  | .num a, .num b => a > b
  | _, _ => false

/-- A column chart data point (the fields used by the utilities). -/
structure MekkoChartColumnDataPoint where
  position : ℚ
  valueAbsolute : ℚ
  categoryIndex : Nat
deriving DecidableEq, Repr

/-- A chart series: its data points. -/
structure MekkoChartSeries where
  data : List MekkoChartColumnDataPoint
deriving DecidableEq, Repr

/-- A numeric range; `d3.min`/`d3.max` may produce `undefined` (modelled
as `none`). -/
structure NumberRange where
  min : Option ℚ
  max : Option ℚ
deriving DecidableEq, Repr

/-- d3.min on a list of numbers: `none` on the empty list. -/
def d3min : List ℚ → Option ℚ
  | [] => none
  | x :: xs =>
    some (match d3min xs with
      | none => x
      | some m => min x m)

/-- d3.max on a list of numbers: `none` on the empty list. -/
def d3max : List ℚ → Option ℚ
  | [] => none
  | x :: xs =>
    some (match d3max xs with
      | none => x
      | some m => max x m)

/-- d3.min over accessor results, skipping `undefined` results. -/
def d3minOpt (l : List (Option ℚ)) : Option ℚ :=
  d3min (l.filterMap id)

/-- d3.max over accessor results, skipping `undefined` results. -/
def d3maxOpt (l : List (Option ℚ)) : Option ℚ :=
  d3max (l.filterMap id)

/-- The rounding tolerance constant `PctRoundingError = 0.0001`. -/
def PctRoundingError : ℚ := 1 / 10000

/-- Double.roundToPrecision: round to the nearest multiple of the
precision (Math.round rounds half up, which is Mathlib's `round`). -/
def roundToPrecision (x p : ℚ) : ℚ :=
  (round (x / p) : ℤ) * p

/-- calcValueDomain from `src/utils.ts` lines 57-92. -/
def calcValueDomain (data : List MekkoChartSeries) (is100pct : Bool) : NumberRange :=
  if data.length = 0 then
    { min := some 0, max := some 10 }
  else
    let mn : Option ℚ :=
      d3minOpt (data.map fun series =>
        d3min (series.data.map fun dataPoint =>
          dataPoint.position - dataPoint.valueAbsolute))
    let mx : Option ℚ :=
      d3maxOpt (data.map fun series =>
        d3max (series.data.map fun dataPoint => dataPoint.position))
    if is100pct then
      { min := mn.map (fun v => roundToPrecision v PctRoundingError),
        max := mx.map (fun v => roundToPrecision v PctRoundingError) }
    else
      { min := mn, max := mx }

/-- Number.MAX_VALUE, exactly. -/
def MAX_VALUE : ℚ := (2 ^ 53 - 1) * 2 ^ 971

/-- The loop of getClosestColumnIndex: state is the next list index `i`,
the current best index `currentIndex` and the current best distance. -/
def closestLoop (coordinate : ℚ) :
    List ℚ → Nat → Nat → ℚ → Nat
  | [], _, currentIndex, _ => currentIndex
  | c :: rest, i, currentIndex, distance =>
    let currentDistance : ℚ := |coordinate - c|
    if currentDistance < distance then
      closestLoop coordinate rest (i + 1) i currentDistance
    else
      closestLoop coordinate rest (i + 1) currentIndex distance

/-- getClosestColumnIndex from `src/utils.ts` lines 167-181. -/
def getClosestColumnIndex (coordinate : ℚ) (columnsCenters : List ℚ) : Nat :=
  closestLoop coordinate columnsCenters 0 0 MAX_VALUE

/-- The constant DimmedOpacity = 0.4. -/
def DimmedOpacity : ℚ := 2 / 5

/-- The constant DefaultOpacity = 1.0. -/
def DefaultOpacity : ℚ := 1

/-- A rendered rect element: the bound data point's category index, its
current fill-opacity, and whether the last style update went through an
animated transition. -/
structure RectElem where
  categoryIndex : Nat
  fillOpacity : ℚ
  transitioned : Bool
deriving DecidableEq, Repr

/-- setChosenColumnOpacity from `src/utils.ts` lines 141-165.  The scene is
the series groups under the main graphics context, each holding its rect
elements; `lastColumnIndex` is `none` when `typeof lastColumnIndex` is
`"undefined"`. -/
def setChosenColumnOpacity (scene : List (List RectElem))
    (selectedColumnIndex : Nat) (lastColumnIndex : Option Nat) :
    List (List RectElem) :=
  let lastColumnUndefined : Bool := lastColumnIndex.isNone
  let afterDim : List (List RectElem) :=
    scene.map fun rects =>
      rects.map fun dataPoint =>
        if (dataPoint.categoryIndex ≠ selectedColumnIndex)
            ∧ (lastColumnUndefined = true ∨ lastColumnIndex = some dataPoint.categoryIndex) then
          { dataPoint with fillOpacity := DimmedOpacity, transitioned := true }
        else
          dataPoint
  afterDim.map fun rects =>
    rects.map fun dataPoint =>
      if dataPoint.categoryIndex = selectedColumnIndex then
        { dataPoint with fillOpacity := DefaultOpacity, transitioned := false }
      else
        dataPoint

/-- A JavaScript object of one of the shapes `transformDomain` touches.
`other` fields stand for all the remaining (never inspected) own
properties of the object. -/
inductive Node where
  | dv (categories : Option Nat) (values : Option Nat) (other : Nat)
  | refArr (elems : List Nat) (other : Nat)
  | catCol (ordinalType : Bool) (values : Option Nat) (objects : Option Nat) (other : Nat)
  | valCol (values : Nat) (other : Nat)
  | primArr (elems : List Prim)
  | objArr (elems : List (Option Nat))
  | bad
deriving DecidableEq, Repr

/-- The store: object contents per address and the next fresh address. -/
structure Store where
  mem : Nat → Node
  next : Nat

/-- Write an object at an address. -/
def Store.set (σ : Store) (a : Nat) (nd : Node) : Store :=
  ⟨fun b => if b = a then nd else σ.mem b, σ.next⟩

/-- Allocate a new object, returning its fresh address. -/
def Store.alloc (σ : Store) (nd : Node) : Store × Nat :=
  (⟨fun b => if b = σ.next then nd else σ.mem b, σ.next + 1⟩, σ.next)

/-- A concrete store given by a list of objects at addresses 0.. -/
def storeOfList (l : List Node) : Store :=
  ⟨fun a => l.getD a .bad, l.length⟩

/-- Field read `obj.categories` of a data view. -/
def Node.dvCategories : Node → Option Nat
  | .dv c _ _ => c
  | _ => none

/-- Field read `obj.values` of a data view. -/
def Node.dvValues : Node → Option Nat
  | .dv _ v _ => v
  | _ => none

/-- Elements of an array-of-references object. -/
def Node.arrElems : Node → List Nat
  | .refArr es _ => es
  | _ => []

/-- Whether `category.source.type` is ordinal (`AxisHelper.isOrdinal`
applied to the declared type; `isOrdinal(null)` is false). -/
def Node.catOrdinal : Node → Bool
  | .catCol o _ _ _ => o
  | _ => false

/-- Field read `category.values`. -/
def Node.catValues : Node → Option Nat
  | .catCol _ v _ _ => v
  | _ => none

/-- Field read `category.objects`. -/
def Node.catObjects : Node → Option Nat
  | .catCol _ _ o _ => o
  | _ => none

/-- Field read `column.values` of a value column. -/
def Node.colValuesA : Node → Nat
  | .valCol v _ => v
  | _ => 0

/-- Elements of a primitive-value array object. -/
def Node.prims : Node → List Prim
  | .primArr es => es
  | _ => []

/-- Elements of a `DataViewObjects[]` array object (entries are opaque
object identities; `none` is an undefined hole). -/
def Node.objs : Node → List (Option Nat)
  | .objArr es => es
  | _ => []

/-- Prototype.inherit: derive a new object from a parent.  The parent is
never written during `transformDomain`, so the prototype link is modelled
as a copying allocation. -/
def inheritNode (σ : Store) (a : Nat) : Store × Nat :=
  σ.alloc (σ.mem a)

/-- Assignment `dataView.values = v`. -/
def setDvValues (σ : Store) (a : Nat) (v : Nat) : Store :=
  match σ.mem a with
  | .dv c _ o => σ.set a (.dv c (some v) o)
  | _ => σ

/-- Assignment `dataView.categories = v`. -/
def setDvCategories (σ : Store) (a : Nat) (v : Nat) : Store :=
  match σ.mem a with
  | .dv _ vs o => σ.set a (.dv (some v) vs o)
  | _ => σ

/-- Assignment `arr[i] = v` on an array-of-references object. -/
def setArrElem (σ : Store) (a : Nat) (i : Nat) (v : Nat) : Store :=
  match σ.mem a with
  | .refArr es o => σ.set a (.refArr (es.set i v) o)
  | _ => σ

/-- Assignment `category.values = v`. -/
def setCatValues (σ : Store) (a : Nat) (v : Nat) : Store :=
  match σ.mem a with
  | .catCol ord _ ob o => σ.set a (.catCol ord (some v) ob o)
  | _ => σ

/-- Assignment `category.objects = v`. -/
def setCatObjects (σ : Store) (a : Nat) (v : Nat) : Store :=
  match σ.mem a with
  | .catCol ord vs _ o => σ.set a (.catCol ord vs (some v) o)
  | _ => σ

/-- Assignment `column.values = v` on a value column. -/
def setColValues (σ : Store) (a : Nat) (v : Nat) : Store :=
  match σ.mem a with
  | .valCol _ o => σ.set a (.valCol v o)
  | _ => σ

/-- Result of `transformDomain`: a data view reference, or the JavaScript
`undefined` produced by the bare `return;` on the ordinal path. -/
inductive TDRes where
  | view (a : Nat)
  | undefined
deriving DecidableEq, Repr

/-- The filter predicate of the loop body:
`categoryValues[t] >= min && categoryValues[t] <= max`. -/
def keepPrim (mn mx v : Prim) : Bool :=
  primGe v mn && primLe v mx

/-- The kept index set of the loop: indices `t` in original order with
`categoryValues[t]` within the resolved bounds. -/
def keptIdxs (catVals : List Prim) (mn mx : Prim) : List Nat :=
  (List.range catVals.length).filter fun t => keepPrim mn mx (catVals.getD t .undefined)

/-- Resolution of a missing lower bound:
`if (typeof min !== "number") min = categoryValues[0]`. -/
def resolveMin (mn : PropVal) (catVals : List Prim) : Prim :=
  match mn with
  | .num n => .num n
  | .other => catVals.getD 0 .undefined

/-- Resolution of a missing upper bound:
`if (typeof max !== "number") max = categoryValues[categoryValues.length - 1]`. -/
def resolveMax (mx : PropVal) (catVals : List Prim) : Prim :=
  match mx with
  | .num n => .num n
  | .other => catVals.getD (catVals.length - 1) .undefined

/-- The loop `for (let t ...)` over value columns in the result
construction: `resultDataViewValues[t] = Prototype.inherit(resultDataViewValues[t]);
measureArray.values = newValues[t]`. -/
def buildCols (σ : Store) (arrA : Nat) (cols : List (List Prim)) (t : Nat) : Store :=
  match cols with
  | [] => σ
  | colVals :: rest =>
    let colA : Nat := (σ.mem arrA).arrElems.getD t 0
    let s1 := inheritNode σ colA
    let σ2 := setArrElem s1.1 arrA t s1.2
    let s3 := σ2.alloc (.primArr colVals)
    let σ4 := setColValues s3.1 s1.2 s3.2
    buildCols σ4 arrA rest (t + 1)

/-- The guarded objects installation of the result construction:
`if (resultDataViewCategories0.objects) { resultDataViewCategories0.objects = newObjects; }`
with the new objects array allocated. -/
def installObjects (σ : Store) (catAddr : Nat) (newObjects : List (Option Nat)) : Store :=
  if ((σ.mem catAddr).catObjects).isSome then
    let sa := σ.alloc (.objArr newObjects)
    setCatObjects sa.1 catAddr sa.2
  else σ

/-- The result-construction block of `transformDomain` (lines 268-293):
derive the data view, its values array, its categories array and its first
category column with `Prototype.inherit`, then install the filtered
arrays. -/
def buildResult (σ : Store) (dataView catsA : Nat)
    (newcategoryValues : List Prim) (newObjects : List (Option Nat))
    (newValues : List (List Prim)) : Store × Nat :=
  let s1 := inheritNode σ dataView
  let a1 : Nat := s1.2
  let rv : Nat := ((s1.1.mem a1).dvValues).getD 0
  let s2 := inheritNode s1.1 rv
  let σ3 := setDvValues s2.1 a1 s2.2
  let s4 := inheritNode σ3 catsA
  let σ5 := setDvCategories s4.1 a1 s4.2
  let c0 : Nat := (σ5.mem s4.2).arrElems.getD 0 0
  let s6 := inheritNode σ5 c0
  let σ7 := setArrElem s6.1 s4.2 0 s6.2
  let s8 := σ7.alloc (.primArr newcategoryValues)
  let σ9 := setCatValues s8.1 s6.2 s8.2
  let σ10 := installObjects σ9 s6.2 newObjects
  (buildCols σ10 s2.2 newValues 0, a1)

/-- transformDomain from `src/utils.ts` lines 198-294, over the store of
JavaScript objects.  Returns the possibly updated store together with the
returned value. -/
def transformDomain (σ : Store) (dataView : Nat) (mn mx : PropVal) :
    Store × TDRes :=
  match (σ.mem dataView).dvCategories, (σ.mem dataView).dvValues with
  | none, _ => (σ, .view dataView)
  | some _, none => (σ, .view dataView)
  | some catsA, some valsA =>
    let catArr : List Nat := (σ.mem catsA).arrElems
    let valArr : List Nat := (σ.mem valsA).arrElems
    if catArr.length = 0 ∨ valArr.length = 0 then
      (σ, .view dataView)
    else if mn.isNum = false ∧ mx.isNum = false then
      (σ, .view dataView)
    else
      let category : Nat := catArr.getD 0 0
      if (σ.mem category).catOrdinal then
        (σ, .undefined)
      else
        match (σ.mem category).catValues, (σ.mem category).catObjects with
        | none, _ => (σ, .view dataView)
        | some _, none => (σ, .view dataView)
        | some cvA, some coA =>
          let categoryValues : List Prim := (σ.mem cvA).prims
          let categoryObjects : List (Option Nat) := (σ.mem coA).objs
          let minP : Prim := resolveMin mn categoryValues
          let maxP : Prim := resolveMax mx categoryValues
          if primGt minP maxP then
            (σ, .view dataView)
          else
            let kept : List Nat := keptIdxs categoryValues minP maxP
            let newcategoryValues : List Prim :=
              kept.map fun t => categoryValues.getD t .undefined
            let newObjects : List (Option Nat) :=
              kept.map fun t => categoryObjects.getD t none
            let newValues : List (List Prim) :=
              valArr.map fun colA =>
                let colVals : List Prim := (σ.mem ((σ.mem colA).colValuesA)).prims
                kept.map fun t => colVals.getD t .undefined
            let r := buildResult σ dataView catsA newcategoryValues newObjects newValues
            (r.1, .view r.2)

/-- Combination of two optional minima, as d3.min combines a new valid
value with the accumulator. -/
def omin : Option ℚ → Option ℚ → Option ℚ
  | none, y => y
  | some x, none => some x
  | some x, some y => some (min x y)

/-- Combination of two optional maxima. -/
def omax : Option ℚ → Option ℚ → Option ℚ
  | none, y => y
  | some x, none => some x
  | some x, some y => some (max x y)

/-- A concrete well-formed categorical data view with four category
values 1..4, per-category objects, and two value columns. -/
def filterStore : Store := storeOfList [
  .dv (some 1) (some 2) 7,
  .refArr [3, 16] 8,
  .refArr [4, 5] 9,
  .catCol false (some 6) (some 10) 11,
  .valCol 12 13,
  .valCol 14 15,
  .primArr [.num 1, .num 2, .num 3, .num 4],
  .bad, .bad, .bad,
  .objArr [some 100, some 101, some 102, some 103],
  .bad,
  .primArr [.num 10, .num 20, .num 30, .num 40],
  .bad,
  .primArr [.num 50, .num 60, .num 70, .num 80],
  .bad,
  .catCol false (some 6) (some 10) 0]

/-- A concrete data view whose first category column has an ordinal
declared type. -/
def ordinalStore : Store := storeOfList [
  .dv (some 1) (some 2) 7,
  .refArr [3] 8,
  .refArr [4] 9,
  .catCol true (some 6) (some 10) 11,
  .valCol 12 13,
  .bad,
  .primArr [.num 1],
  .bad, .bad, .bad,
  .objArr [some 100],
  .bad,
  .primArr [.num 10]]

/-- A concrete data view with a non-ordinal category column whose
`objects` field is absent. -/
def noObjectsStore : Store := storeOfList [
  .dv (some 1) (some 2) 0,
  .refArr [3] 0,
  .refArr [4] 0,
  .catCol false (some 5) none 0,
  .valCol 6 0,
  .primArr [.num 5],
  .primArr [.num 7]]

/-- The insufficient-input conditions of the first early return of
`transformDomain`: categories or values missing, or either empty. -/
def missingInput (σ : Store) (dv : Nat) : Prop :=
  (σ.mem dv).dvCategories = none ∨ (σ.mem dv).dvValues = none ∨
  (∃ ca, (σ.mem dv).dvCategories = some ca ∧ (σ.mem ca).arrElems.length = 0) ∨
  (∃ va, (σ.mem dv).dvValues = some va ∧ (σ.mem va).arrElems.length = 0)

/-- Description of one value column of a well-formed data view: the
address of the column object, the address of its values array, the
primitive values, and its remaining fields. -/
structure ColDesc where
  colAddr : Nat
  valsAddr : Nat
  vals : List Prim
  other : Nat
deriving DecidableEq, Repr

/-- Description of a well-formed categorical data view in a store, with a
non-ordinal first category column carrying both values and objects. -/
structure ViewDesc where
  dvAddr : Nat
  catsAddr : Nat
  valsAddr : Nat
  cat0Addr : Nat
  catTail : List Nat
  cvAddr : Nat
  coAddr : Nat
  catVals : List Prim
  catObjs : List (Option Nat)
  cols : List ColDesc
  dvOther : Nat
  catsOther : Nat
  valsOther : Nat
  cat0Other : Nat
deriving DecidableEq, Repr

/-- The store models the described data view: every described object is
present at its address with the described content, and every described
address is allocated (below `next`). -/
def Models (σ : Store) (d : ViewDesc) : Prop :=
  σ.mem d.dvAddr = .dv (some d.catsAddr) (some d.valsAddr) d.dvOther ∧
  σ.mem d.catsAddr = .refArr (d.cat0Addr :: d.catTail) d.catsOther ∧
  σ.mem d.valsAddr = .refArr (d.cols.map ColDesc.colAddr) d.valsOther ∧
  σ.mem d.cat0Addr = .catCol false (some d.cvAddr) (some d.coAddr) d.cat0Other ∧
  σ.mem d.cvAddr = .primArr d.catVals ∧
  σ.mem d.coAddr = .objArr d.catObjs ∧
  (∀ c ∈ d.cols, σ.mem c.colAddr = .valCol c.valsAddr c.other ∧
    σ.mem c.valsAddr = .primArr c.vals) ∧
  d.dvAddr < σ.next ∧ d.catsAddr < σ.next ∧ d.valsAddr < σ.next ∧
  d.cat0Addr < σ.next ∧ d.cvAddr < σ.next ∧ d.coAddr < σ.next ∧
  (∀ a ∈ d.catTail, a < σ.next) ∧
  (∀ c ∈ d.cols, c.colAddr < σ.next ∧ c.valsAddr < σ.next)

/-- The description of filterStore. -/
def filterDesc : ViewDesc :=
  { dvAddr := 0, catsAddr := 1, valsAddr := 2, cat0Addr := 3, catTail := [16],
    cvAddr := 6, coAddr := 10,
    catVals := [.num 1, .num 2, .num 3, .num 4],
    catObjs := [some 100, some 101, some 102, some 103],
    cols := [⟨4, 12, [.num 10, .num 20, .num 30, .num 40], 13⟩,
             ⟨5, 14, [.num 50, .num 60, .num 70, .num 80], 15⟩],
    dvOther := 7, catsOther := 8, valsOther := 9, cat0Other := 11 }

theorem d3min_eq_min? (l : List ℚ) : d3min l = l.min? := by
  induction l with
  | nil => rfl
  | cons x xs ih =>
    rw [List.min?_cons]
    rw [d3min, ih]
    cases xs.min? <;> simp [Option.elim]

theorem d3max_eq_max? (l : List ℚ) : d3max l = l.max? := by
  induction l with
  | nil => rfl
  | cons x xs ih =>
    rw [List.max?_cons]
    rw [d3max, ih]
    cases xs.max? <;> simp [Option.elim]

theorem d3min_append (l1 l2 : List ℚ) :
    d3min (l1 ++ l2) = omin (d3min l1) (d3min l2) := by
  induction l1 with
  | nil => simp [d3min, omin]
  | cons x xs ih =>
    rw [List.cons_append, d3min, ih, d3min]
    cases d3min xs <;> cases d3min l2 <;> simp [omin, min_assoc]

theorem d3max_append (l1 l2 : List ℚ) :
    d3max (l1 ++ l2) = omax (d3max l1) (d3max l2) := by
  induction l1 with
  | nil => simp [d3max, omax]
  | cons x xs ih =>
    rw [List.cons_append, d3max, ih, d3max]
    cases d3max xs <;> cases d3max l2 <;> simp [omax, max_assoc]

theorem d3minOpt_cons (o : Option ℚ) (rest : List (Option ℚ)) :
    d3minOpt (o :: rest) = omin o (d3minOpt rest) := by
  cases o with
  | none => simp [d3minOpt, omin]
  | some x =>
    simp only [d3minOpt, List.filterMap_cons, id, d3min]
    cases h : d3min (rest.filterMap id) <;> simp [omin, h]

theorem d3maxOpt_cons (o : Option ℚ) (rest : List (Option ℚ)) :
    d3maxOpt (o :: rest) = omax o (d3maxOpt rest) := by
  cases o with
  | none => simp [d3maxOpt, omax]
  | some x =>
    simp only [d3maxOpt, List.filterMap_cons, id, d3max]
    cases h : d3max (rest.filterMap id) <;> simp [omax, h]

theorem d3minOpt_flat (L : List (List ℚ)) :
    d3minOpt (L.map d3min) = d3min L.flatten := by
  induction L with
  | nil => rfl
  | cons l ls ih =>
    rw [List.map_cons, d3minOpt_cons, ih, List.flatten_cons, d3min_append]

theorem d3maxOpt_flat (L : List (List ℚ)) :
    d3maxOpt (L.map d3max) = d3max L.flatten := by
  induction L with
  | nil => rfl
  | cons l ls ih =>
    rw [List.map_cons, d3maxOpt_cons, ih, List.flatten_cons, d3max_append]

theorem d3min_isSome (l : List ℚ) (h : l ≠ []) : ∃ m, d3min l = some m := by
  cases l with
  | nil => exact absurd rfl h
  | cons x xs => exact ⟨_, rfl⟩

theorem d3max_isSome (l : List ℚ) (h : l ≠ []) : ∃ m, d3max l = some m := by
  cases l with
  | nil => exact absurd rfl h
  | cons x xs => exact ⟨_, rfl⟩

theorem d3min_mem (l : List ℚ) : ∀ m, d3min l = some m → m ∈ l := by
  induction l with
  | nil => intro m h; exact absurd h (by simp [d3min])
  | cons x xs ih =>
    intro m h
    rw [d3min] at h
    cases hx : d3min xs with
    | none =>
      rw [hx] at h
      simp only [Option.some.injEq] at h
      rw [← h]
      exact List.mem_cons_self _ _
    | some m' =>
      rw [hx] at h
      simp only [Option.some.injEq] at h
      rcases le_total x m' with hle | hle
      · have hm : m = x := by rw [← h]; exact min_eq_left hle
        rw [hm]; exact List.mem_cons_self _ _
      · have hm : m = m' := by rw [← h]; exact min_eq_right hle
        exact List.mem_cons_of_mem _ (hm ▸ ih m' hx)

theorem d3max_mem (l : List ℚ) : ∀ m, d3max l = some m → m ∈ l := by
  induction l with
  | nil => intro m h; exact absurd h (by simp [d3max])
  | cons x xs ih =>
    intro m h
    rw [d3max] at h
    cases hx : d3max xs with
    | none =>
      rw [hx] at h
      simp only [Option.some.injEq] at h
      rw [← h]
      exact List.mem_cons_self _ _
    | some m' =>
      rw [hx] at h
      simp only [Option.some.injEq] at h
      rcases le_total m' x with hle | hle
      · have hm : m = x := by rw [← h]; exact max_eq_left hle
        rw [hm]; exact List.mem_cons_self _ _
      · have hm : m = m' := by rw [← h]; exact max_eq_right hle
        exact List.mem_cons_of_mem _ (hm ▸ ih m' hx)

theorem d3min_le (l : List ℚ) : ∀ m, d3min l = some m → ∀ y ∈ l, m ≤ y := by
  induction l with
  | nil => simp
  | cons x xs ih =>
    intro m h y hy
    rw [d3min] at h
    cases hx : d3min xs with
    | none =>
      rw [hx] at h
      simp only [Option.some.injEq] at h
      cases xs with
      | nil =>
        rcases List.mem_singleton.mp hy with rfl
        exact le_of_eq h.symm
      | cons a as => exact absurd hx (by simp [d3min])
    | some m' =>
      rw [hx] at h
      simp only [Option.some.injEq] at h
      rcases List.mem_cons.mp hy with rfl | hy'
      · rw [← h]; exact min_le_left _ _
      · calc m ≤ m' := by rw [← h]; exact min_le_right _ _
          _ ≤ y := ih m' hx y hy'

theorem d3max_ge (l : List ℚ) : ∀ m, d3max l = some m → ∀ y ∈ l, y ≤ m := by
  induction l with
  | nil => simp
  | cons x xs ih =>
    intro m h y hy
    rw [d3max] at h
    cases hx : d3max xs with
    | none =>
      rw [hx] at h
      simp only [Option.some.injEq] at h
      cases xs with
      | nil =>
        rcases List.mem_singleton.mp hy with rfl
        exact le_of_eq h
      | cons a as => exact absurd hx (by simp [d3max])
    | some m' =>
      rw [hx] at h
      simp only [Option.some.injEq] at h
      rcases List.mem_cons.mp hy with rfl | hy'
      · rw [← h]; exact le_max_left _ _
      · calc y ≤ m' := ih m' hx y hy'
          _ ≤ m := by rw [← h]; exact le_max_right _ _

theorem roundToPrecision_mono (x y p : ℚ) (hp : 0 < p) (hxy : x ≤ y) :
    roundToPrecision x p ≤ roundToPrecision y p := by
  unfold roundToPrecision
  have hdiv : x / p ≤ y / p := div_le_div_of_nonneg_right hxy (le_of_lt hp)
  have hround : round (x / p) ≤ round (y / p) := by
    rw [round_eq, round_eq]
    exact Int.floor_le_floor (by linarith)
  exact mul_le_mul_of_nonneg_right (by exact_mod_cast hround) (le_of_lt hp)

theorem calcValueDomain_flat (data : List MekkoChartSeries) (h : data ≠ []) :
    (calcValueDomain data false).min
        = d3min ((data.flatMap MekkoChartSeries.data).map
            fun p => p.position - p.valueAbsolute) ∧
    (calcValueDomain data false).max
        = d3max ((data.flatMap MekkoChartSeries.data).map
            fun p => p.position) := by
  have hlen : ¬ data.length = 0 := by
    simpa [List.length_eq_zero] using h
  have hmin := d3minOpt_flat (data.map fun s =>
    s.data.map fun p => p.position - p.valueAbsolute)
  have hmax := d3maxOpt_flat (data.map fun s =>
    s.data.map fun p => p.position)
  rw [List.map_map] at hmin hmax
  rw [calcValueDomain, if_neg hlen]
  simp only [if_neg Bool.false_ne_true]
  constructor
  · rw [show (d3minOpt (data.map fun series => d3min (series.data.map fun p =>
          p.position - p.valueAbsolute)))
        = d3minOpt (data.map (d3min ∘ fun s => s.data.map fun p =>
          p.position - p.valueAbsolute)) from rfl, hmin]
    rw [List.map_flatMap, List.flatMap_def]
  · rw [show (d3maxOpt (data.map fun series => d3max (series.data.map fun p =>
          p.position)))
        = d3maxOpt (data.map (d3max ∘ fun s => s.data.map fun p =>
          p.position)) from rfl, hmax]
    rw [List.map_flatMap, List.flatMap_def]

theorem calcValueDomain_true_eq (data : List MekkoChartSeries) (h : data ≠ []) :
    calcValueDomain data true =
      { min := (calcValueDomain data false).min.map
          (fun v => roundToPrecision v PctRoundingError),
        max := (calcValueDomain data false).max.map
          (fun v => roundToPrecision v PctRoundingError) } := by
  have hlen : ¬ data.length = 0 := by
    simpa [List.length_eq_zero] using h
  rw [calcValueDomain, if_neg hlen, calcValueDomain, if_neg hlen]
  simp

/-- C2: calcValueDomain on an empty series collection returns exactly
min = 0, max = 10; on a non-empty collection with is100pct false it
returns the minimum over all data points of position - valueAbsolute and
the maximum over all data points of position. -/
theorem calcValueDomain_default_and_min_max (b : Bool) (data : List MekkoChartSeries) :
    calcValueDomain [] b = { min := some 0, max := some 10 } ∧
    (data ≠ [] →
      (calcValueDomain data false).min
          = ((data.flatMap MekkoChartSeries.data).map
              fun p => p.position - p.valueAbsolute).min? ∧
      (calcValueDomain data false).max
          = ((data.flatMap MekkoChartSeries.data).map
              fun p => p.position).max?) := by
  refine ⟨rfl, fun h => ?_⟩
  obtain ⟨h1, h2⟩ := calcValueDomain_flat data h
  exact ⟨by rw [h1, d3min_eq_min?], by rw [h2, d3max_eq_max?]⟩

/-- Witness for C2 at a concrete input: one series with a single data
point at position 3 with valueAbsolute 1. -/
theorem calcValueDomain_default_and_min_max_witness :
    (calcValueDomain [⟨[⟨3, 1, 0⟩]⟩] false).min = some 2 ∧
    (calcValueDomain [⟨[⟨3, 1, 0⟩]⟩] false).max = some 3 := by
  have h := (calcValueDomain_default_and_min_max false [⟨[⟨3, 1, 0⟩]⟩]).2 (by decide)
  exact ⟨by rw [h.1]; with_unfolding_all decide, by rw [h.2]; with_unfolding_all decide⟩

/-- C4 counterexample: a non-empty series collection with a data point
whose valueAbsolute is negative (position 0, valueAbsolute -5) makes
calcValueDomain return min = 5 and max = 0, so min is not at most max,
and no NaN is involved. -/
theorem calcValueDomain_min_le_max_counterexample :
    calcValueDomain [⟨[⟨0, -5, 0⟩]⟩] false = { min := some 5, max := some 0 } ∧
    ¬ ((5 : ℚ) ≤ 0) := by with_unfolding_all decide

/-- C4 (amended): for every non-empty series collection that contains at
least one data point and whose data points all have non-negative
valueAbsolute, calcValueDomain returns a defined range with min at most
max, for either value of is100pct. -/
theorem calcValueDomain_min_le_max (data : List MekkoChartSeries) (b : Bool)
    (hne : data ≠ [])
    (habs : ∀ s ∈ data, ∀ p ∈ s.data, 0 ≤ p.valueAbsolute)
    (hpt : data.flatMap MekkoChartSeries.data ≠ []) :
    ∃ m M, (calcValueDomain data b).min = some m ∧
      (calcValueDomain data b).max = some M ∧ m ≤ M := by
  obtain ⟨h1, h2⟩ := calcValueDomain_flat data hne
  have hmapne : ((data.flatMap MekkoChartSeries.data).map
      fun p => p.position - p.valueAbsolute) ≠ [] := by
    simpa using hpt
  have hmapne' : ((data.flatMap MekkoChartSeries.data).map
      fun p => p.position) ≠ [] := by
    simpa using hpt
  obtain ⟨m0, hm0⟩ := d3min_isSome _ hmapne
  obtain ⟨M0, hM0⟩ := d3max_isSome _ hmapne'
  obtain ⟨p, hp, hpf⟩ := List.mem_map.mp (d3min_mem _ m0 hm0)
  obtain ⟨s, hs, hps⟩ := List.mem_flatMap.mp hp
  have habsp : 0 ≤ p.valueAbsolute := habs s hs p hps
  have hle1 : m0 ≤ p.position := by
    rw [← hpf]; linarith
  have hle2 : p.position ≤ M0 :=
    d3max_ge _ M0 hM0 p.position (List.mem_map_of_mem _ hp)
  have hmM : m0 ≤ M0 := le_trans hle1 hle2
  cases b with
  | false =>
    exact ⟨m0, M0, by rw [h1, hm0], by rw [h2, hM0], hmM⟩
  | true =>
    rw [calcValueDomain_true_eq data hne]
    refine ⟨roundToPrecision m0 PctRoundingError,
      roundToPrecision M0 PctRoundingError, ?_, ?_, ?_⟩
    · simp only [h1, hm0]; rfl
    · simp only [h2, hM0]; rfl
    · exact roundToPrecision_mono m0 M0 PctRoundingError (by norm_num [PctRoundingError]) hmM

/-- Witness for C4 at a concrete input. -/
theorem calcValueDomain_min_le_max_witness :
    ∃ m M, (calcValueDomain [⟨[⟨3, 1, 0⟩]⟩] false).min = some m ∧
      (calcValueDomain [⟨[⟨3, 1, 0⟩]⟩] false).max = some M ∧ m ≤ M :=
  calcValueDomain_min_le_max [⟨[⟨3, 1, 0⟩]⟩] false (by decide) (by decide) (by decide)

theorem closestLoop_no_improve (x : ℚ) : ∀ (l : List ℚ) (i ci : Nat) (d : ℚ),
    (∀ k, k < l.length → d ≤ |x - l.getD k 0|) → closestLoop x l i ci d = ci := by
  intro l
  induction l with
  | nil => intro i ci d _; rfl
  | cons c rest ih =>
    intro i ci d h
    have h0 : d ≤ |x - c| := by simpa using h 0 (by simp)
    simp only [closestLoop]
    rw [if_neg (not_lt.mpr h0)]
    exact ih (i + 1) ci d fun k hk => by
      simpa using h (k + 1) (by simpa using Nat.succ_lt_succ hk)

theorem closestLoop_first_min (x : ℚ) : ∀ (l : List ℚ) (k0 i ci : Nat) (d : ℚ),
    k0 < l.length →
    |x - l.getD k0 0| < d →
    (∀ m, m < l.length → |x - l.getD k0 0| ≤ |x - l.getD m 0|) →
    (∀ m, m < k0 → |x - l.getD k0 0| < |x - l.getD m 0|) →
    closestLoop x l i ci d = i + k0 := by
  intro l
  induction l with
  | nil => intro k0 i ci d hk0; exact absurd hk0 (by simp)
  | cons c rest ih =>
    intro k0 i ci d hk0 hlt hmin hstrict
    cases k0 with
    | zero =>
      simp only [List.getD_cons_zero] at hlt hmin
      simp only [closestLoop]
      rw [if_pos hlt]
      rw [closestLoop_no_improve x rest (i + 1) i (|x - c|) fun k hk => by
        simpa using hmin (k + 1) (by simpa using Nat.succ_lt_succ hk)]
      omega
    | succ k' =>
      have hk0' : k' < rest.length := by simpa using hk0
      have h0 : |x - rest.getD k' 0| < |x - c| := by
        simpa using hstrict 0 (Nat.succ_pos k')
      simp only [List.getD_cons_succ] at hlt
      have hmin' : ∀ m, m < rest.length → |x - rest.getD k' 0| ≤ |x - rest.getD m 0| :=
        fun m hm => by simpa using hmin (m + 1) (by simpa using Nat.succ_lt_succ hm)
      have hstrict' : ∀ m, m < k' → |x - rest.getD k' 0| < |x - rest.getD m 0| :=
        fun m hm => by simpa using hstrict (m + 1) (by simpa using Nat.succ_lt_succ hm)
      simp only [closestLoop, List.getD_cons_succ]
      by_cases hc : |x - c| < d
      · rw [if_pos hc]
        rw [ih k' (i + 1) i (|x - c|) hk0' h0 hmin' hstrict']
        omega
      · rw [if_neg hc]
        rw [ih k' (i + 1) ci d hk0' hlt hmin' hstrict']
        omega

theorem first_min_exists (x : ℚ) : ∀ (l : List ℚ), l ≠ [] →
    ∃ k0, k0 < l.length ∧
      (∀ m, m < l.length → |x - l.getD k0 0| ≤ |x - l.getD m 0|) ∧
      (∀ m, m < k0 → |x - l.getD k0 0| < |x - l.getD m 0|) := by
  intro l
  induction l with
  | nil => intro h; exact absurd rfl h
  | cons c rest ih =>
    intro _
    by_cases hrest : rest = []
    · subst hrest
      refine ⟨0, by simp, fun m hm => ?_, fun m hm => absurd hm (by omega)⟩
      have hm0 : m = 0 := by simpa using hm
      subst hm0
      exact le_refl _
    · obtain ⟨k0', hk0', hmin', hstrict'⟩ := ih hrest
      by_cases hle : |x - c| ≤ |x - rest.getD k0' 0|
      · refine ⟨0, by simp, fun m hm => ?_, fun m hm => absurd hm (by omega)⟩
        cases m with
        | zero => exact le_refl _
        | succ m' =>
          have hm' : m' < rest.length := by simpa using hm
          simpa using le_trans hle (hmin' m' hm')
      · push_neg at hle
        refine ⟨k0' + 1, by simpa using Nat.succ_lt_succ hk0', fun m hm => ?_, fun m hm => ?_⟩
        · cases m with
          | zero => simpa using le_of_lt hle
          | succ m' =>
            have hm' : m' < rest.length := by simpa using hm
            simpa using hmin' m' hm'
        · cases m with
          | zero => simpa using hle
          | succ m' =>
            have hm' : m' < k0' := by omega
            simpa using hstrict' m' hm'

theorem closest_concrete_five : getClosestColumnIndex 5 [0, 10, 20] = 0 := by
  have e1 : |(5 : ℚ) - 0| = 5 := by
    rw [show (5 : ℚ) - 0 = 5 by norm_num]
    exact abs_of_nonneg (by norm_num)
  have e2 : |(5 : ℚ) - 10| = 5 := by
    rw [show (5 : ℚ) - 10 = -5 by norm_num]
    rw [abs_neg]
    exact abs_of_nonneg (by norm_num)
  have e3 : |(5 : ℚ) - 20| = 15 := by
    rw [show (5 : ℚ) - 20 = -15 by norm_num]
    rw [abs_neg]
    exact abs_of_nonneg (by norm_num)
  show closestLoop 5 [0, 10, 20] 0 0 MAX_VALUE = 0
  simp only [closestLoop]
  rw [if_pos (by rw [e1, MAX_VALUE]; norm_num)]
  rw [if_neg (by rw [e1, e2]; norm_num)]
  rw [if_neg (by rw [e1, e3]; norm_num)]

theorem closest_concrete_fifteen : getClosestColumnIndex 15 [0, 10, 20] = 1 := by
  have e1 : |(15 : ℚ) - 0| = 15 := by
    rw [show (15 : ℚ) - 0 = 15 by norm_num]
    exact abs_of_nonneg (by norm_num)
  have e2 : |(15 : ℚ) - 10| = 5 := by
    rw [show (15 : ℚ) - 10 = 5 by norm_num]
    exact abs_of_nonneg (by norm_num)
  have e3 : |(15 : ℚ) - 20| = 5 := by
    rw [show (15 : ℚ) - 20 = -5 by norm_num]
    rw [abs_neg]
    exact abs_of_nonneg (by norm_num)
  show closestLoop 15 [0, 10, 20] 0 0 MAX_VALUE = 1
  simp only [closestLoop]
  rw [if_pos (by rw [e1, MAX_VALUE]; norm_num)]
  rw [if_pos (by rw [e1, e2]; norm_num)]
  rw [if_neg (by rw [e2, e3]; norm_num)]

/-- C3 counterexample: at coordinate 15 the centers 10 and 20 both have
absolute distance 5, and the strict less-than comparison keeps the
earlier index, so the function returns 1, not 2 as the claim states. -/
theorem getClosestColumnIndex_claim_counterexample :
    getClosestColumnIndex 15 [0, 10, 20] = 1 ∧
    |(15 : ℚ) - 10| = |(15 : ℚ) - 20| ∧ (1 : Nat) ≠ 2 := by
  refine ⟨closest_concrete_fifteen, ?_, by decide⟩
  rw [show (15 : ℚ) - 10 = 5 by norm_num, show (15 : ℚ) - 20 = -5 by norm_num, abs_neg]

/-- C3 (amended): getClosestColumnIndex returns an index of minimum
absolute distance, and the first such index, provided every distance is
below Number.MAX_VALUE; at coordinate 5 over centers 0, 10, 20 it returns
0, and at coordinate 15 it returns 1 (tie between centers 10 and 20
resolved to the earlier index by the strict comparison). -/
theorem getClosestColumnIndex_spec (coordinate : ℚ) (centers : List ℚ)
    (hne : centers ≠ [])
    (hsmall : ∀ i, i < centers.length →
      |coordinate - centers.getD i 0| < MAX_VALUE) :
    (getClosestColumnIndex coordinate centers < centers.length ∧
      (∀ i, i < centers.length →
        |coordinate - centers.getD (getClosestColumnIndex coordinate centers) 0|
          ≤ |coordinate - centers.getD i 0|) ∧
      (∀ i, i < getClosestColumnIndex coordinate centers →
        |coordinate - centers.getD (getClosestColumnIndex coordinate centers) 0|
          < |coordinate - centers.getD i 0|)) ∧
    getClosestColumnIndex 5 [0, 10, 20] = 0 ∧
    getClosestColumnIndex 15 [0, 10, 20] = 1 := by
  obtain ⟨k0, hk0, hmin, hstrict⟩ := first_min_exists coordinate centers hne
  have heq : getClosestColumnIndex coordinate centers = k0 := by
    unfold getClosestColumnIndex
    rw [closestLoop_first_min coordinate centers k0 0 0 MAX_VALUE hk0
      (hsmall k0 hk0) hmin hstrict]
    omega
  rw [heq]
  exact ⟨⟨hk0, hmin, hstrict⟩, closest_concrete_five, closest_concrete_fifteen⟩

theorem distances_small_five :
    ∀ i, i < ([0, 10, 20] : List ℚ).length →
      |(5 : ℚ) - [0, 10, 20].getD i 0| < MAX_VALUE := by
  intro i hi
  simp only [List.length_cons, List.length_nil] at hi
  interval_cases i <;>
    exact abs_lt.mpr
      ⟨by rw [MAX_VALUE]; norm_num [List.getD_cons_zero, List.getD_cons_succ],
       by rw [MAX_VALUE]; norm_num [List.getD_cons_zero, List.getD_cons_succ]⟩

/-- Witness for C3 at a concrete input: at coordinate 5 the returned
index has distance at most that of center 1. -/
theorem getClosestColumnIndex_spec_witness :
    |(5 : ℚ) - [0, 10, 20].getD (getClosestColumnIndex 5 [0, 10, 20]) 0|
      ≤ |(5 : ℚ) - [0, 10, 20].getD 1 0| := by
  have h := getClosestColumnIndex_spec 5 [0, 10, 20] (by decide) distances_small_five
  exact h.1.2.1 1 (by decide)

/-- C7 counterexample: with selected index 0 and last-interacted index 1,
the rect bound to category index 2 (neither selected nor last) keeps its
full opacity: the code dims only the column matching lastColumnIndex,
not every column that is neither selected nor last. -/
theorem setChosenColumnOpacity_claim_counterexample :
    setChosenColumnOpacity [[⟨0, 1, false⟩, ⟨1, 1, false⟩, ⟨2, 1, false⟩]] 0 (some 1)
      = [[⟨0, 1, false⟩, ⟨1, DimmedOpacity, true⟩, ⟨2, 1, false⟩]] ∧
    (1 : ℚ) ≠ DimmedOpacity := by
  with_unfolding_all decide

/-- C7 (amended): setChosenColumnOpacity restores full opacity without a
transition on every rect whose category index equals the selected index,
dims with a transition every rect whose category index differs from the
selected index and either lastColumnIndex is undefined or the rect's
category index equals lastColumnIndex, and leaves every other rect
untouched. -/
theorem setChosenColumnOpacity_spec (scene : List (List RectElem))
    (sel : Nat) (last : Option Nat) :
    setChosenColumnOpacity scene sel last
      = scene.map (List.map fun r =>
          if r.categoryIndex = sel then
            { r with fillOpacity := DefaultOpacity, transitioned := false }
          else if last = none ∨ last = some r.categoryIndex then
            { r with fillOpacity := DimmedOpacity, transitioned := true }
          else r) := by
  unfold setChosenColumnOpacity
  simp only [List.map_map]
  congr 1
  funext rects
  simp only [Function.comp_apply, List.map_map]
  congr 1
  funext r
  simp only [Function.comp_apply]
  by_cases hsel : r.categoryIndex = sel <;>
    by_cases hnone : last = none <;>
      by_cases hlast : last = some r.categoryIndex <;>
        simp [hsel, hnone, hlast, Option.isNone_iff_eq_none]

theorem Store.set_mem (σ : Store) (a : Nat) (nd : Node) (b : Nat) :
    (σ.set a nd).mem b = if b = a then nd else σ.mem b := rfl

theorem Store.set_next (σ : Store) (a : Nat) (nd : Node) :
    (σ.set a nd).next = σ.next := rfl

theorem Store.alloc_fst_mem (σ : Store) (nd : Node) (b : Nat) :
    (σ.alloc nd).1.mem b = if b = σ.next then nd else σ.mem b := rfl

theorem Store.alloc_fst_next (σ : Store) (nd : Node) :
    (σ.alloc nd).1.next = σ.next + 1 := rfl

theorem Store.alloc_snd (σ : Store) (nd : Node) :
    (σ.alloc nd).2 = σ.next := rfl

theorem inheritNode_fst_mem (σ : Store) (x : Nat) (b : Nat) :
    (inheritNode σ x).1.mem b = if b = σ.next then σ.mem x else σ.mem b := rfl

theorem inheritNode_fst_next (σ : Store) (x : Nat) :
    (inheritNode σ x).1.next = σ.next + 1 := rfl

theorem inheritNode_snd (σ : Store) (x : Nat) :
    (inheritNode σ x).2 = σ.next := rfl

theorem setDvValues_mem_ne (σ : Store) (a v b : Nat) (hb : b ≠ a) :
    (setDvValues σ a v).mem b = σ.mem b := by
  unfold setDvValues
  split <;> simp [Store.set, hb]

theorem setDvValues_next (σ : Store) (a v : Nat) :
    (setDvValues σ a v).next = σ.next := by
  unfold setDvValues
  split <;> rfl

theorem setDvValues_eq (σ : Store) (a v : Nat) (c w : Option Nat) (o : Nat)
    (h : σ.mem a = .dv c w o) :
    setDvValues σ a v = σ.set a (.dv c (some v) o) := by
  simp only [setDvValues, h]

theorem setDvCategories_mem_ne (σ : Store) (a v b : Nat) (hb : b ≠ a) :
    (setDvCategories σ a v).mem b = σ.mem b := by
  unfold setDvCategories
  split <;> simp [Store.set, hb]

theorem setDvCategories_next (σ : Store) (a v : Nat) :
    (setDvCategories σ a v).next = σ.next := by
  unfold setDvCategories
  split <;> rfl

theorem setDvCategories_eq (σ : Store) (a v : Nat) (c w : Option Nat) (o : Nat)
    (h : σ.mem a = .dv c w o) :
    setDvCategories σ a v = σ.set a (.dv (some v) w o) := by
  simp only [setDvCategories, h]

theorem setArrElem_mem_ne (σ : Store) (a : Nat) (i : Nat) (v b : Nat) (hb : b ≠ a) :
    (setArrElem σ a i v).mem b = σ.mem b := by
  unfold setArrElem
  split <;> simp [Store.set, hb]

theorem setArrElem_next (σ : Store) (a : Nat) (i : Nat) (v : Nat) :
    (setArrElem σ a i v).next = σ.next := by
  unfold setArrElem
  split <;> rfl

theorem setArrElem_eq (σ : Store) (a : Nat) (i : Nat) (v : Nat) (es : List Nat) (o : Nat)
    (h : σ.mem a = .refArr es o) :
    setArrElem σ a i v = σ.set a (.refArr (es.set i v) o) := by
  simp only [setArrElem, h]

theorem setCatValues_mem_ne (σ : Store) (a v b : Nat) (hb : b ≠ a) :
    (setCatValues σ a v).mem b = σ.mem b := by
  unfold setCatValues
  split <;> simp [Store.set, hb]

theorem setCatValues_next (σ : Store) (a v : Nat) :
    (setCatValues σ a v).next = σ.next := by
  unfold setCatValues
  split <;> rfl

theorem setCatValues_eq (σ : Store) (a v : Nat) (ord : Bool) (w ob : Option Nat) (o : Nat)
    (h : σ.mem a = .catCol ord w ob o) :
    setCatValues σ a v = σ.set a (.catCol ord (some v) ob o) := by
  simp only [setCatValues, h]

theorem setCatObjects_mem_ne (σ : Store) (a v b : Nat) (hb : b ≠ a) :
    (setCatObjects σ a v).mem b = σ.mem b := by
  unfold setCatObjects
  split <;> simp [Store.set, hb]

theorem setCatObjects_next (σ : Store) (a v : Nat) :
    (setCatObjects σ a v).next = σ.next := by
  unfold setCatObjects
  split <;> rfl

theorem setCatObjects_eq (σ : Store) (a v : Nat) (ord : Bool) (w ob : Option Nat) (o : Nat)
    (h : σ.mem a = .catCol ord w ob o) :
    setCatObjects σ a v = σ.set a (.catCol ord w (some v) o) := by
  simp only [setCatObjects, h]

theorem setColValues_mem_ne (σ : Store) (a v b : Nat) (hb : b ≠ a) :
    (setColValues σ a v).mem b = σ.mem b := by
  unfold setColValues
  split <;> simp [Store.set, hb]

theorem setColValues_next (σ : Store) (a v : Nat) :
    (setColValues σ a v).next = σ.next := by
  unfold setColValues
  split <;> rfl

theorem setColValues_eq (σ : Store) (a v : Nat) (w : Nat) (o : Nat)
    (h : σ.mem a = .valCol w o) :
    setColValues σ a v = σ.set a (.valCol v o) := by
  simp only [setColValues, h]

theorem buildCols_next_ge : ∀ (cols : List (List Prim)) (σ : Store) (arrA : Nat) (t : Nat),
    σ.next ≤ (buildCols σ arrA cols t).next := by
  intro cols
  induction cols with
  | nil => intro σ arrA t; exact le_refl _
  | cons colVals rest ih =>
    intro σ arrA t
    simp only [buildCols]
    refine le_trans ?_ (ih _ arrA (t + 1))
    simp only [setColValues_next, Store.alloc_fst_next, setArrElem_next,
      inheritNode_fst_next]
    omega

theorem buildCols_mem_frame : ∀ (cols : List (List Prim)) (σ : Store) (arrA : Nat)
    (t : Nat) (a : Nat), a ≠ arrA → a < σ.next →
    (buildCols σ arrA cols t).mem a = σ.mem a := by
  intro cols
  induction cols with
  | nil => intro σ arrA t a _ _; rfl
  | cons colVals rest ih =>
    intro σ arrA t a ha hlt
    simp only [buildCols]
    have hnext : (setColValues ((setArrElem (inheritNode σ
        ((σ.mem arrA).arrElems.getD t 0)).1 arrA t
        (inheritNode σ ((σ.mem arrA).arrElems.getD t 0)).2).alloc
        (.primArr colVals)).1
        (inheritNode σ ((σ.mem arrA).arrElems.getD t 0)).2
        ((setArrElem (inheritNode σ ((σ.mem arrA).arrElems.getD t 0)).1 arrA t
          (inheritNode σ ((σ.mem arrA).arrElems.getD t 0)).2).alloc
          (.primArr colVals)).2).next = σ.next + 2 := by
      simp only [setColValues_next, Store.alloc_fst_next, setArrElem_next,
        inheritNode_fst_next]
    rw [ih _ arrA (t + 1) a ha (by rw [hnext]; omega)]
    rw [setColValues_mem_ne _ _ _ _ (by simp only [inheritNode_snd]; omega)]
    rw [Store.alloc_fst_mem]
    rw [if_neg (by simp only [setArrElem_next, inheritNode_fst_next]; omega)]
    rw [setArrElem_mem_ne _ _ _ _ _ ha]
    rw [inheritNode_fst_mem, if_neg (by omega)]

theorem buildResult_snd (σ : Store) (dv catsA : Nat) (nv : List Prim)
    (no : List (Option Nat)) (nvs : List (List Prim)) :
    (buildResult σ dv catsA nv no nvs).2 = σ.next := rfl

theorem installObjects_next_ge (σ : Store) (c : Nat) (no : List (Option Nat)) :
    σ.next ≤ (installObjects σ c no).next := by
  simp only [installObjects]
  split
  · simp only [setCatObjects_next, Store.alloc_fst_next]
    omega
  · exact le_refl _

theorem installObjects_next_le (σ : Store) (c : Nat) (no : List (Option Nat)) :
    (installObjects σ c no).next ≤ σ.next + 1 := by
  simp only [installObjects]
  split
  · simp only [setCatObjects_next, Store.alloc_fst_next]
    omega
  · omega

theorem installObjects_mem_ne (σ : Store) (c : Nat) (no : List (Option Nat))
    (a : Nat) (ha : a ≠ c) (hlt : a < σ.next) :
    (installObjects σ c no).mem a = σ.mem a := by
  simp only [installObjects]
  split
  · rw [setCatObjects_mem_ne _ _ _ _ ha, Store.alloc_fst_mem, if_neg (by omega)]
  · rfl

theorem installObjects_eq (σ : Store) (c : Nat) (no : List (Option Nat))
    (ord : Bool) (vs : Option Nat) (ob : Nat) (o : Nat)
    (hc : c < σ.next) (h : σ.mem c = .catCol ord vs (some ob) o) :
    installObjects σ c no
      = (σ.alloc (.objArr no)).1.set c (.catCol ord vs (some σ.next) o) := by
  simp only [installObjects]
  rw [if_pos (by rw [h]; rfl)]
  rw [setCatObjects_eq _ _ _ ord vs (some ob) o
    (by rw [Store.alloc_fst_mem, if_neg (by omega), h]), Store.alloc_snd]

theorem buildResult_next_ge (σ : Store) (dv catsA : Nat) (nv : List Prim)
    (no : List (Option Nat)) (nvs : List (List Prim)) :
    σ.next ≤ (buildResult σ dv catsA nv no nvs).1.next := by
  simp only [buildResult]
  refine le_trans ?_ (buildCols_next_ge nvs _ _ 0)
  refine le_trans ?_ (installObjects_next_ge _ _ _)
  simp only [setCatValues_next, Store.alloc_fst_next, setArrElem_next,
    inheritNode_fst_next, setDvCategories_next, setDvValues_next]
  omega

theorem buildResult_mem_frame (σ : Store) (dv catsA : Nat) (nv : List Prim)
    (no : List (Option Nat)) (nvs : List (List Prim)) (a : Nat) (ha : a < σ.next) :
    (buildResult σ dv catsA nv no nvs).1.mem a = σ.mem a := by
  simp only [buildResult]
  rw [buildCols_mem_frame nvs _ _ 0 a
    (by simp only [inheritNode_snd, inheritNode_fst_next]; omega) ?hlt]
  case hlt =>
    refine lt_of_lt_of_le ?_ (installObjects_next_ge _ _ _)
    simp only [setCatValues_next, Store.alloc_fst_next, setArrElem_next,
      inheritNode_fst_next, setDvCategories_next, setDvValues_next]
    omega
  rw [installObjects_mem_ne _ _ _ a
    (by simp only [inheritNode_snd, setCatValues_next, Store.alloc_fst_next,
      setArrElem_next, inheritNode_fst_next, setDvCategories_next,
      setDvValues_next]; omega)
    (by simp only [setCatValues_next, Store.alloc_fst_next, setArrElem_next,
      inheritNode_fst_next, setDvCategories_next, setDvValues_next]; omega)]
  rw [setCatValues_mem_ne _ _ _ _
    (by simp only [inheritNode_snd, setArrElem_next, inheritNode_fst_next,
      setDvCategories_next, setDvValues_next]; omega)]
  rw [Store.alloc_fst_mem, if_neg (by
    simp only [setArrElem_next, inheritNode_fst_next, setDvCategories_next,
      setDvValues_next]; omega)]
  rw [setArrElem_mem_ne _ _ _ _ _ (by
    simp only [inheritNode_snd, setDvCategories_next, inheritNode_fst_next,
      setDvValues_next]; omega)]
  rw [inheritNode_fst_mem, if_neg (by
    simp only [setDvCategories_next, inheritNode_fst_next, setDvValues_next]; omega)]
  rw [setDvCategories_mem_ne _ _ _ _ (by
    simp only [inheritNode_snd, inheritNode_fst_next, setDvValues_next]; omega)]
  rw [inheritNode_fst_mem, if_neg (by
    simp only [setDvValues_next, inheritNode_fst_next]; omega)]
  rw [setDvValues_mem_ne _ _ _ _ (by simp only [inheritNode_snd]; omega)]
  rw [inheritNode_fst_mem, if_neg (by simp only [inheritNode_fst_next]; omega)]
  rw [inheritNode_fst_mem, if_neg (by omega)]

/-- C9: transformDomain never mutates its input: no object allocated
before the call is ever written, every no-op path returns the input view
itself, and the filtering path returns a freshly allocated view (address
at least the old allocation bound). -/
theorem transformDomain_no_mutation (σ : Store) (dv : Nat) (mn mx : PropVal) (a : Nat)
    (ha : a < σ.next) :
    ((transformDomain σ dv mn mx).1).mem a = σ.mem a ∧
    σ.next ≤ ((transformDomain σ dv mn mx).1).next ∧
    (∀ r, (transformDomain σ dv mn mx).2 = TDRes.view r → r = dv ∨ σ.next ≤ r) := by
  simp only [transformDomain]
  split
  · exact ⟨rfl, le_refl _, fun r hr => Or.inl (TDRes.view.inj hr.symm)⟩
  · exact ⟨rfl, le_refl _, fun r hr => Or.inl (TDRes.view.inj hr.symm)⟩
  · split
    · exact ⟨rfl, le_refl _, fun r hr => Or.inl (TDRes.view.inj hr.symm)⟩
    · split
      · exact ⟨rfl, le_refl _, fun r hr => Or.inl (TDRes.view.inj hr.symm)⟩
      · split
        · exact ⟨rfl, le_refl _, fun r hr => TDRes.noConfusion hr⟩
        · split
          · exact ⟨rfl, le_refl _, fun r hr => Or.inl (TDRes.view.inj hr.symm)⟩
          · exact ⟨rfl, le_refl _, fun r hr => Or.inl (TDRes.view.inj hr.symm)⟩
          · split
            · exact ⟨rfl, le_refl _, fun r hr => Or.inl (TDRes.view.inj hr.symm)⟩
            · refine ⟨buildResult_mem_frame _ _ _ _ _ _ a ha,
                buildResult_next_ge _ _ _ _ _ _,
                fun r hr => Or.inr ?_⟩
              have h2 := TDRes.view.inj hr
              rw [← h2, buildResult_snd]

/-- Witness for C9: on the concrete filterStore, the original category
values array at address 6 is unchanged after a filtering call. -/
theorem transformDomain_no_mutation_witness :
    ((transformDomain filterStore 0 (.num 2) (.num 3)).1).mem 6 = filterStore.mem 6 :=
  (transformDomain_no_mutation filterStore 0 (.num 2) (.num 3) 6
    (by with_unfolding_all decide)).1

/-- C5 counterexample: on a data view whose category type is ordinal,
supplying two non-numeric bounds makes transformDomain return the input
view (the neither-bound-numeric early return fires before the ordinal
check), not the undefined sentinel, contradicting "regardless of the
supplied min/max bounds". -/
theorem transformDomain_ordinal_claim_counterexample :
    (transformDomain ordinalStore 0 PropVal.other PropVal.other).2 = TDRes.view 0 ∧
    (ordinalStore.mem ((ordinalStore.mem 1).arrElems.getD 0 0)).catOrdinal = true ∧
    TDRes.view 0 ≠ TDRes.undefined := by
  with_unfolding_all decide

/-- C5 (amended): with categories and values present and non-empty and at
least one numeric bound, an ordinal category type makes transformDomain
return the undefined sentinel, whatever the two bounds are. -/
theorem transformDomain_ordinal_sentinel (σ : Store) (dv : Nat) (mn mx : PropVal)
    (ca va : Nat)
    (hc : (σ.mem dv).dvCategories = some ca)
    (hv : (σ.mem dv).dvValues = some va)
    (hcl : (σ.mem ca).arrElems.length ≠ 0)
    (hvl : (σ.mem va).arrElems.length ≠ 0)
    (hnum : mn.isNum = true ∨ mx.isNum = true)
    (hord : (σ.mem ((σ.mem ca).arrElems.getD 0 0)).catOrdinal = true) :
    transformDomain σ dv mn mx = (σ, TDRes.undefined) := by
  simp only [transformDomain, hc, hv]
  rw [if_neg (by push_neg; exact ⟨hcl, hvl⟩)]
  rw [if_neg (by rcases hnum with h | h <;> simp [h])]
  rw [if_pos hord]

/-- Witness for C5 on the concrete ordinalStore with a numeric bound. -/
theorem transformDomain_ordinal_sentinel_witness :
    transformDomain ordinalStore 0 (.num 1) (.num 2) = (ordinalStore, TDRes.undefined) :=
  transformDomain_ordinal_sentinel ordinalStore 0 (.num 1) (.num 2) 1 2
    (by with_unfolding_all decide) (by with_unfolding_all decide)
    (by with_unfolding_all decide) (by with_unfolding_all decide)
    (Or.inl (by with_unfolding_all decide)) (by with_unfolding_all decide)

/-- C6: transformDomain returns its input data view itself on every
insufficient-input path: missing or empty categories or values, neither
bound numeric, category values or objects absent on a non-ordinal
category, or resolved min greater than resolved max after defaulting a
non-numeric min to the first category value and a non-numeric max to the
last. -/
theorem transformDomain_noop_paths (σ : Store) (dv : Nat) (mn mx : PropVal)
    (h : missingInput σ dv
      ∨ (mn.isNum = false ∧ mx.isNum = false)
      ∨ (∃ ca, (σ.mem dv).dvCategories = some ca ∧
          (σ.mem ((σ.mem ca).arrElems.getD 0 0)).catOrdinal = false ∧
          ((σ.mem ((σ.mem ca).arrElems.getD 0 0)).catValues = none ∨
           (σ.mem ((σ.mem ca).arrElems.getD 0 0)).catObjects = none))
      ∨ (∃ ca cv co, (σ.mem dv).dvCategories = some ca ∧
          (σ.mem ((σ.mem ca).arrElems.getD 0 0)).catOrdinal = false ∧
          (σ.mem ((σ.mem ca).arrElems.getD 0 0)).catValues = some cv ∧
          (σ.mem ((σ.mem ca).arrElems.getD 0 0)).catObjects = some co ∧
          primGt (resolveMin mn ((σ.mem cv).prims))
            (resolveMax mx ((σ.mem cv).prims)) = true)) :
    transformDomain σ dv mn mx = (σ, TDRes.view dv) := by
  rcases h with (hc | hv | ⟨ca, hca, hlen⟩ | ⟨va, hva, hlen⟩) | hB | hC | hD
  · simp only [transformDomain, hc]
  · cases hcc : (σ.mem dv).dvCategories with
    | none => simp only [transformDomain, hcc]
    | some ca => simp only [transformDomain, hcc, hv]
  · cases hvv : (σ.mem dv).dvValues with
    | none => simp only [transformDomain, hca, hvv]
    | some va =>
      simp only [transformDomain, hca, hvv]
      rw [if_pos (Or.inl hlen)]
  · cases hcc : (σ.mem dv).dvCategories with
    | none => simp only [transformDomain, hcc]
    | some ca =>
      simp only [transformDomain, hcc, hva]
      rw [if_pos (Or.inr hlen)]
  · cases hcc : (σ.mem dv).dvCategories with
    | none => simp only [transformDomain, hcc]
    | some ca =>
      cases hvv : (σ.mem dv).dvValues with
      | none => simp only [transformDomain, hcc, hvv]
      | some va =>
        simp only [transformDomain, hcc, hvv]
        by_cases hlen : (σ.mem ca).arrElems.length = 0 ∨ (σ.mem va).arrElems.length = 0
        · rw [if_pos hlen]
        · rw [if_neg hlen, if_pos hB]
  · obtain ⟨ca, hca, hordf, hdisj⟩ := hC
    cases hvv : (σ.mem dv).dvValues with
    | none => simp only [transformDomain, hca, hvv]
    | some va =>
      simp only [transformDomain, hca, hvv]
      by_cases hlen : (σ.mem ca).arrElems.length = 0 ∨ (σ.mem va).arrElems.length = 0
      · rw [if_pos hlen]
      · rw [if_neg hlen]
        by_cases hnum : mn.isNum = false ∧ mx.isNum = false
        · rw [if_pos hnum]
        · rw [if_neg hnum, if_neg (by rw [hordf]; simp)]
          rcases hdisj with hval | hobj
          · simp only [hval]
          · cases hvalc : (σ.mem ((σ.mem ca).arrElems.getD 0 0)).catValues with
            | none => simp only
            | some cv => simp only [hvalc, hobj]
  · obtain ⟨ca, cv, co, hca, hordf, hval, hobj, hgt⟩ := hD
    cases hvv : (σ.mem dv).dvValues with
    | none => simp only [transformDomain, hca, hvv]
    | some va =>
      simp only [transformDomain, hca, hvv]
      by_cases hlen : (σ.mem ca).arrElems.length = 0 ∨ (σ.mem va).arrElems.length = 0
      · rw [if_pos hlen]
      · rw [if_neg hlen]
        by_cases hnum : mn.isNum = false ∧ mx.isNum = false
        · rw [if_pos hnum]
        · rw [if_neg hnum, if_neg (by rw [hordf]; simp)]
          simp only [hval, hobj]
          rw [if_pos hgt]

/-- Witness for C6 on the concrete store whose category objects are
absent: a numeric-bounds call returns the input view itself. -/
theorem transformDomain_noop_paths_witness :
    transformDomain noObjectsStore 0 (.num 10) (.num 10)
      = (noObjectsStore, TDRes.view 0) :=
  transformDomain_noop_paths noObjectsStore 0 (.num 10) (.num 10)
    (Or.inr (Or.inr (Or.inl ⟨1, by with_unfolding_all decide,
      by with_unfolding_all decide, Or.inr (by with_unfolding_all decide)⟩)))

theorem getD_append_cons {α : Type} (pre : List α) (x : α) (l : List α) (d : α) :
    (pre ++ x :: l).getD pre.length d = x := by
  induction pre with
  | nil => rfl
  | cons p ps ih => simpa using ih

theorem set_append_cons {α : Type} (pre : List α) (x v : α) (l : List α) :
    (pre ++ x :: l).set pre.length v = pre ++ v :: l := by
  induction pre with
  | nil => rfl
  | cons p ps ih => simp [ih]

theorem getD_map_of_lt {α β : Type} (f : α → β) (l : List α) (j : Nat)
    (hj : j < l.length) (d : β) (d0 : α) :
    (l.map f).getD j d = f (l.getD j d0) := by
  induction l generalizing j with
  | nil => simp at hj
  | cons x xs ih =>
    cases j with
    | zero => rfl
    | succ j' => simpa using ih j' (by simpa using hj)

theorem range_filter_map_getD {α : Type} (l : List α) (p : α → Bool) (d : α) :
    (((List.range l.length).filter fun t => p (l.getD t d)).map fun t => l.getD t d)
      = l.filter p := by
  induction l with
  | nil => rfl
  | cons x xs ih =>
    rw [List.length_cons, List.range_succ_eq_map, List.filter_cons]
    by_cases hpx : p x = true
    · rw [if_pos (by simpa using hpx)]
      rw [List.map_cons]
      simp only [List.getD_cons_zero]
      rw [List.filter_map, List.map_map]
      simp only [Function.comp_def, List.getD_cons_succ]
      rw [ih, List.filter_cons, if_pos (by simpa using hpx)]
    · rw [if_neg (by simpa using hpx)]
      rw [List.filter_map, List.map_map]
      simp only [Function.comp_def, List.getD_cons_succ]
      rw [ih, List.filter_cons, if_neg (by simpa using hpx)]

theorem keptIdxs_map_getD (catVals : List Prim) (mn mx : Prim) :
    ((keptIdxs catVals mn mx).map fun t => catVals.getD t .undefined)
      = catVals.filter (keepPrim mn mx) :=
  range_filter_map_getD catVals (keepPrim mn mx) .undefined

theorem keptIdxs_length (catVals : List Prim) (mn mx : Prim) :
    (keptIdxs catVals mn mx).length
      = (catVals.filter (keepPrim mn mx)).length := by
  rw [← keptIdxs_map_getD catVals mn mx, List.length_map]

theorem buildCols_spec : ∀ (cols : List ColDesc) (nvs : List (List Prim)) (σ : Store)
    (arrA : Nat) (pre : List Nat) (o : Nat),
    nvs.length = cols.length →
    σ.mem arrA = .refArr (pre ++ cols.map ColDesc.colAddr) o →
    arrA < σ.next →
    (∀ c ∈ cols, σ.mem c.colAddr = .valCol c.valsAddr c.other ∧
      c.colAddr < σ.next ∧ c.colAddr ≠ arrA) →
    ∃ fr : List (Nat × Nat),
      fr.length = cols.length ∧
      (buildCols σ arrA nvs pre.length).mem arrA
        = .refArr (pre ++ fr.map Prod.fst) o ∧
      (∀ j, j < cols.length →
        (buildCols σ arrA nvs pre.length).mem ((fr.getD j (0, 0)).1)
            = .valCol ((fr.getD j (0, 0)).2) ((cols.getD j ⟨0, 0, [], 0⟩).other) ∧
        (buildCols σ arrA nvs pre.length).mem ((fr.getD j (0, 0)).2)
            = .primArr (nvs.getD j []) ∧
        σ.next ≤ (fr.getD j (0, 0)).1 ∧ σ.next ≤ (fr.getD j (0, 0)).2) := by
  intro cols
  induction cols with
  | nil =>
    intro nvs σ arrA pre o hlen harr _ _
    have hnvs : nvs = [] := List.length_eq_zero.mp hlen
    subst hnvs
    refine ⟨[], rfl, ?_, fun j hj => absurd hj (by simp)⟩
    simpa using harr
  | cons c cs ih =>
    intro nvs σ arrA pre o hlen harr harrlt hcols
    cases nvs with
    | nil => simp at hlen
    | cons v vs =>
      obtain ⟨hcv, hclt, hcne⟩ := hcols c (List.mem_cons_self _ _)
      -- one step of the loop
      simp only [buildCols]
      have hcolA : ((σ.mem arrA).arrElems.getD pre.length 0) = c.colAddr := by
        rw [harr]
        simp only [Node.arrElems, List.map_cons]
        exact getD_append_cons pre c.colAddr (cs.map ColDesc.colAddr) 0
      rw [hcolA]
      -- the four intermediate stores of this iteration
      have hs1mem : ∀ b, (inheritNode σ c.colAddr).1.mem b
          = if b = σ.next then σ.mem c.colAddr else σ.mem b := fun b => rfl
      have hσ2 : setArrElem (inheritNode σ c.colAddr).1 arrA pre.length
          (inheritNode σ c.colAddr).2
          = (inheritNode σ c.colAddr).1.set arrA
              (.refArr (pre ++ (inheritNode σ c.colAddr).2 :: cs.map ColDesc.colAddr) o) := by
        rw [setArrElem_eq _ _ _ _ (pre ++ c.colAddr :: cs.map ColDesc.colAddr) o]
        · rw [set_append_cons]
        · rw [hs1mem arrA, if_neg (by omega), harr]
          simp [Node.arrElems]
      rw [hσ2]
      simp only [inheritNode_snd, Store.alloc_snd, Store.set_next, inheritNode_fst_next]
      have hmemf : (((inheritNode σ c.colAddr).1.set arrA
          (.refArr (pre ++ σ.next :: cs.map ColDesc.colAddr) o)).alloc
          (.primArr v)).1.mem σ.next = .valCol c.valsAddr c.other := by
        rw [Store.alloc_fst_mem,
          if_neg (by rw [Store.set_next, inheritNode_fst_next]; omega),
          Store.set_mem, if_neg (by omega), inheritNode_fst_mem, if_pos rfl, hcv]
      have hσ4 : setColValues (((inheritNode σ c.colAddr).1.set arrA
            (.refArr (pre ++ σ.next :: cs.map ColDesc.colAddr) o)).alloc (.primArr v)).1
            σ.next (σ.next + 1)
          = ((((inheritNode σ c.colAddr).1.set arrA
            (.refArr (pre ++ σ.next :: cs.map ColDesc.colAddr) o)).alloc (.primArr v)).1).set
            σ.next (.valCol (σ.next + 1) c.other) :=
        setColValues_eq _ _ _ c.valsAddr c.other hmemf
      rw [hσ4]
      have hnext4 : (((((inheritNode σ c.colAddr).1.set arrA
          (.refArr (pre ++ σ.next :: cs.map ColDesc.colAddr) o)).alloc (.primArr v)).1).set
          σ.next (.valCol (σ.next + 1) c.other)).next = σ.next + 2 := by
        simp only [Store.set_next, Store.alloc_fst_next, inheritNode_fst_next]
      have harr4 : (((((inheritNode σ c.colAddr).1.set arrA
          (.refArr (pre ++ σ.next :: cs.map ColDesc.colAddr) o)).alloc (.primArr v)).1).set
          σ.next (.valCol (σ.next + 1) c.other)).mem arrA
          = .refArr ((pre ++ [σ.next]) ++ cs.map ColDesc.colAddr) o := by
        rw [Store.set_mem, if_neg (by omega), Store.alloc_fst_mem,
          if_neg (by rw [Store.set_next, inheritNode_fst_next]; omega),
          Store.set_mem, if_pos rfl, List.append_assoc, List.singleton_append]
      have hcols4 : ∀ c' ∈ cs, (((((inheritNode σ c.colAddr).1.set arrA
          (.refArr (pre ++ σ.next :: cs.map ColDesc.colAddr) o)).alloc (.primArr v)).1).set
          σ.next (.valCol (σ.next + 1) c.other)).mem c'.colAddr
            = .valCol c'.valsAddr c'.other ∧
          c'.colAddr < (((((inheritNode σ c.colAddr).1.set arrA
          (.refArr (pre ++ σ.next :: cs.map ColDesc.colAddr) o)).alloc (.primArr v)).1).set
          σ.next (.valCol (σ.next + 1) c.other)).next ∧
          c'.colAddr ≠ arrA := by
        intro c' hc'
        obtain ⟨hm, hlt', hne'⟩ := hcols c' (List.mem_cons_of_mem _ hc')
        refine ⟨?_, by rw [hnext4]; omega, hne'⟩
        rw [Store.set_mem, if_neg (by omega), Store.alloc_fst_mem,
          if_neg (by rw [Store.set_next, inheritNode_fst_next]; omega),
          Store.set_mem, if_neg hne', inheritNode_fst_mem, if_neg (by omega), hm]
      have hlen' : vs.length = cs.length := by simpa using hlen
      obtain ⟨fr', h1, h2, h3⟩ := ih vs _ arrA (pre ++ [σ.next]) o hlen' harr4
        (by rw [hnext4]; omega) hcols4
      have hplen : (pre ++ [σ.next]).length = pre.length + 1 := by simp
      rw [hplen] at h2 h3
      refine ⟨(σ.next, σ.next + 1) :: fr', by simp [h1], ?_, ?_⟩
      · rw [h2]
        simp [List.append_assoc]
      · intro j hj
        cases j with
        | zero =>
          dsimp only [List.getD_cons_zero]
          refine ⟨?_, ?_, le_refl _, by omega⟩
          · rw [buildCols_mem_frame vs _ arrA (pre.length + 1) σ.next
              (by omega) (by rw [hnext4]; omega)]
            rw [Store.set_mem, if_pos rfl]
          · rw [buildCols_mem_frame vs _ arrA (pre.length + 1) (σ.next + 1)
              (by omega) (by rw [hnext4]; omega)]
            rw [Store.set_mem, if_neg (by omega), Store.alloc_fst_mem,
              if_pos (by rw [Store.set_next, inheritNode_fst_next])]
        | succ j' =>
          have hj' : j' < cs.length := by simpa using hj
          obtain ⟨ha, hb, hc1, hc2⟩ := h3 j' hj'
          dsimp only [List.getD_cons_succ]
          refine ⟨ha, hb, le_trans ?_ hc1, le_trans ?_ hc2⟩
          · rw [hnext4]; omega
          · rw [hnext4]; omega

set_option maxRecDepth 8000 in
set_option maxHeartbeats 3200000 in
theorem buildResult_spec (σ : Store) (d : ViewDesc) (nv : List Prim)
    (no : List (Option Nat)) (nvs : List (List Prim))
    (hM : Models σ d) (hlen : nvs.length = d.cols.length) :
    ∃ fr : List (Nat × Nat),
      fr.length = d.cols.length ∧
      (buildResult σ d.dvAddr d.catsAddr nv no nvs).1.mem σ.next
        = .dv (some (σ.next + 2)) (some (σ.next + 1)) d.dvOther ∧
      (buildResult σ d.dvAddr d.catsAddr nv no nvs).1.mem (σ.next + 2)
        = .refArr ((σ.next + 3) :: d.catTail) d.catsOther ∧
      (buildResult σ d.dvAddr d.catsAddr nv no nvs).1.mem (σ.next + 3)
        = .catCol false (some (σ.next + 4)) (some (σ.next + 5)) d.cat0Other ∧
      (buildResult σ d.dvAddr d.catsAddr nv no nvs).1.mem (σ.next + 4)
        = .primArr nv ∧
      (buildResult σ d.dvAddr d.catsAddr nv no nvs).1.mem (σ.next + 5)
        = .objArr no ∧
      (buildResult σ d.dvAddr d.catsAddr nv no nvs).1.mem (σ.next + 1)
        = .refArr (fr.map Prod.fst) d.valsOther ∧
      (∀ j, j < d.cols.length →
        (buildResult σ d.dvAddr d.catsAddr nv no nvs).1.mem ((fr.getD j (0, 0)).1)
            = .valCol ((fr.getD j (0, 0)).2) ((d.cols.getD j ⟨0, 0, [], 0⟩).other) ∧
        (buildResult σ d.dvAddr d.catsAddr nv no nvs).1.mem ((fr.getD j (0, 0)).2)
            = .primArr (nvs.getD j []) ∧
        σ.next ≤ (fr.getD j (0, 0)).1 ∧ σ.next ≤ (fr.getD j (0, 0)).2) := by
  obtain ⟨hdv, hcats, hvals, hcat0, hcv, hco, hcols, hbdv, hbcats, hbvals,
    hbcat0, hbcv, hbco, hbtail, hbcols⟩ := hM
  simp only [buildResult]
  iterate 6
    (try simp only [inheritNode_snd];
     try simp only [inheritNode_fst_next];
     try simp only [setDvValues_next];
     try simp only [setDvCategories_next];
     try simp only [setArrElem_next];
     try simp only [Store.alloc_snd];
     try simp only [setCatValues_next];
     try simp only [Store.alloc_fst_next];
     try simp only [show ∀ n : Nat, n + 1 + 1 = n + 2 from fun _ => rfl];
     try simp only [show ∀ n : Nat, n + 2 + 1 = n + 3 from fun _ => rfl];
     try simp only [show ∀ n : Nat, n + 3 + 1 = n + 4 from fun _ => rfl];
     try simp only [show ∀ n : Nat, n + 4 + 1 = n + 5 from fun _ => rfl])
  have hrv : (((inheritNode σ d.dvAddr).1).mem σ.next).dvValues.getD 0 = d.valsAddr := by
    rw [inheritNode_fst_mem, if_pos rfl, hdv]
    rfl
  rw [hrv]
  set T1 := (inheritNode σ d.dvAddr).1 with hT1
  set T2 := (inheritNode T1 d.valsAddr).1 with hT2
  set T3 := setDvValues T2 σ.next (σ.next + 1) with hT3
  set T4 := (inheritNode T3 d.catsAddr).1 with hT4
  set T5 := setDvCategories T4 σ.next (σ.next + 2) with hT5
  have nT1 : T1.next = σ.next + 1 := by rw [hT1, inheritNode_fst_next]
  have mT1 : ∀ b, T1.mem b = if b = σ.next then σ.mem d.dvAddr else σ.mem b :=
    fun b => by rw [hT1, inheritNode_fst_mem]
  have nT2 : T2.next = σ.next + 2 := by rw [hT2, inheritNode_fst_next, nT1]
  have mT2 : ∀ b, T2.mem b = if b = σ.next + 1 then σ.mem d.valsAddr else T1.mem b :=
    fun b => by
      rw [hT2, inheritNode_fst_mem, nT1, mT1 d.valsAddr,
        if_neg (show ¬(d.valsAddr = σ.next) by omega)]
  have nT3 : T3.next = σ.next + 2 := by rw [hT3, setDvValues_next, nT2]
  have mT3 : ∀ b, T3.mem b = if b = σ.next
      then .dv (some d.catsAddr) (some (σ.next + 1)) d.dvOther else T2.mem b :=
    fun b => by
      rw [hT3, setDvValues_eq T2 σ.next (σ.next + 1) (some d.catsAddr)
        (some d.valsAddr) d.dvOther
        (by rw [mT2 σ.next, if_neg (by omega), mT1 σ.next, if_pos rfl, hdv]),
        Store.set_mem]
  have nT4 : T4.next = σ.next + 3 := by rw [hT4, inheritNode_fst_next, nT3]
  have mT4 : ∀ b, T4.mem b = if b = σ.next + 2 then σ.mem d.catsAddr else T3.mem b :=
    fun b => by
      rw [hT4, inheritNode_fst_mem, nT3, mT3 d.catsAddr,
        if_neg (show ¬(d.catsAddr = σ.next) by omega),
        mT2 d.catsAddr, if_neg (show ¬(d.catsAddr = σ.next + 1) by omega),
        mT1 d.catsAddr, if_neg (show ¬(d.catsAddr = σ.next) by omega)]
  have nT5 : T5.next = σ.next + 3 := by rw [hT5, setDvCategories_next, nT4]
  have mT5 : ∀ b, T5.mem b = if b = σ.next
      then .dv (some (σ.next + 2)) (some (σ.next + 1)) d.dvOther else T4.mem b :=
    fun b => by
      rw [hT5, setDvCategories_eq T4 σ.next (σ.next + 2) (some d.catsAddr)
        (some (σ.next + 1)) d.dvOther
        (by rw [mT4 σ.next, if_neg (by omega), mT3 σ.next, if_pos rfl]),
        Store.set_mem]
  have hc0E : (T5.mem (σ.next + 2)).arrElems.getD 0 0 = d.cat0Addr := by
    rw [mT5 (σ.next + 2), if_neg (by omega), mT4 (σ.next + 2), if_pos rfl, hcats]
    rfl
  rw [hc0E]
  set T6 := (inheritNode T5 d.cat0Addr).1 with hT6
  set T7 := setArrElem T6 (σ.next + 2) 0 (σ.next + 3) with hT7
  set T8 := (T7.alloc (Node.primArr nv)).1 with hT8
  set T9 := setCatValues T8 (σ.next + 3) (σ.next + 4) with hT9
  set T10 := installObjects T9 (σ.next + 3) no with hT10
  have nT6 : T6.next = σ.next + 4 := by rw [hT6, inheritNode_fst_next, nT5]
  have mT6 : ∀ b, T6.mem b = if b = σ.next + 3 then σ.mem d.cat0Addr else T5.mem b :=
    fun b => by
      rw [hT6, inheritNode_fst_mem, nT5, mT5 d.cat0Addr,
        if_neg (show ¬(d.cat0Addr = σ.next) by omega),
        mT4 d.cat0Addr, if_neg (show ¬(d.cat0Addr = σ.next + 2) by omega),
        mT3 d.cat0Addr, if_neg (show ¬(d.cat0Addr = σ.next) by omega),
        mT2 d.cat0Addr, if_neg (show ¬(d.cat0Addr = σ.next + 1) by omega),
        mT1 d.cat0Addr, if_neg (show ¬(d.cat0Addr = σ.next) by omega)]
  have nT7 : T7.next = σ.next + 4 := by rw [hT7, setArrElem_next, nT6]
  have mT7 : ∀ b, T7.mem b = if b = σ.next + 2
      then .refArr ((σ.next + 3) :: d.catTail) d.catsOther else T6.mem b :=
    fun b => by
      rw [hT7, setArrElem_eq T6 (σ.next + 2) 0 (σ.next + 3)
        (d.cat0Addr :: d.catTail) d.catsOther
        (by rw [mT6 (σ.next + 2), if_neg (by omega), mT5 (σ.next + 2),
          if_neg (by omega), mT4 (σ.next + 2), if_pos rfl, hcats]),
        Store.set_mem]
      rfl
  have nT8 : T8.next = σ.next + 5 := by rw [hT8, Store.alloc_fst_next, nT7]
  have mT8 : ∀ b, T8.mem b = if b = σ.next + 4 then .primArr nv else T7.mem b :=
    fun b => by rw [hT8, Store.alloc_fst_mem, nT7]
  have nT9 : T9.next = σ.next + 5 := by rw [hT9, setCatValues_next, nT8]
  have mT9 : ∀ b, T9.mem b = if b = σ.next + 3
      then .catCol false (some (σ.next + 4)) (some d.coAddr) d.cat0Other
      else T8.mem b :=
    fun b => by
      rw [hT9, setCatValues_eq T8 (σ.next + 3) (σ.next + 4) false (some d.cvAddr)
        (some d.coAddr) d.cat0Other
        (by rw [mT8 (σ.next + 3), if_neg (by omega), mT7 (σ.next + 3),
          if_neg (by omega), mT6 (σ.next + 3), if_pos rfl, hcat0]),
        Store.set_mem]
  have hT9mem : T9.mem (σ.next + 3)
      = .catCol false (some (σ.next + 4)) (some d.coAddr) d.cat0Other := by
    rw [mT9 (σ.next + 3), if_pos rfl]
  have nT10 : T10.next = σ.next + 6 := by
    rw [hT10, installObjects_eq T9 (σ.next + 3) no false (some (σ.next + 4))
      d.coAddr d.cat0Other (by rw [nT9]; omega) hT9mem,
      Store.set_next, Store.alloc_fst_next, nT9]
  have mT10 : ∀ b, T10.mem b = if b = σ.next + 3
      then .catCol false (some (σ.next + 4)) (some (σ.next + 5)) d.cat0Other
      else if b = σ.next + 5 then .objArr no else T9.mem b :=
    fun b => by
      rw [hT10, installObjects_eq T9 (σ.next + 3) no false (some (σ.next + 4))
        d.coAddr d.cat0Other (by rw [nT9]; omega) hT9mem,
        Store.set_mem, Store.alloc_fst_mem, nT9]
  have hcarr : T10.mem (σ.next + 1)
      = .refArr ([] ++ d.cols.map ColDesc.colAddr) d.valsOther := by
    rw [mT10 (σ.next + 1), if_neg (by omega), if_neg (by omega), mT9 (σ.next + 1),
      if_neg (by omega), mT8 (σ.next + 1), if_neg (by omega), mT7 (σ.next + 1),
      if_neg (by omega), mT6 (σ.next + 1), if_neg (by omega), mT5 (σ.next + 1),
      if_neg (by omega), mT4 (σ.next + 1), if_neg (by omega), mT3 (σ.next + 1),
      if_neg (by omega), mT2 (σ.next + 1), if_pos rfl, hvals, List.nil_append]
  have hccols : ∀ c ∈ d.cols, T10.mem c.colAddr = .valCol c.valsAddr c.other ∧
      c.colAddr < T10.next ∧ c.colAddr ≠ σ.next + 1 := by
    intro c hc
    obtain ⟨hm, _⟩ := hcols c hc
    obtain ⟨hlt, _⟩ := hbcols c hc
    refine ⟨?_, by rw [nT10]; omega, by omega⟩
    rw [mT10 c.colAddr, if_neg (by omega), if_neg (by omega), mT9 c.colAddr,
      if_neg (by omega), mT8 c.colAddr, if_neg (by omega), mT7 c.colAddr,
      if_neg (by omega), mT6 c.colAddr, if_neg (by omega), mT5 c.colAddr,
      if_neg (by omega), mT4 c.colAddr, if_neg (by omega), mT3 c.colAddr,
      if_neg (by omega), mT2 c.colAddr, if_neg (by omega), mT1 c.colAddr,
      if_neg (by omega), hm]
  obtain ⟨fr, hfr1, hfr2, hfr3⟩ := buildCols_spec d.cols nvs T10 (σ.next + 1) []
    d.valsOther hlen hcarr (by rw [nT10]; omega) hccols
  simp only [List.length_nil, List.nil_append] at hfr2 hfr3
  refine ⟨fr, hfr1, ?_, ?_, ?_, ?_, ?_, ?_, ?_⟩
  · rw [buildCols_mem_frame nvs T10 (σ.next + 1) 0 σ.next (by omega)
      (by rw [nT10]; omega)]
    rw [mT10 σ.next, if_neg (by omega), if_neg (by omega), mT9 σ.next,
      if_neg (by omega), mT8 σ.next, if_neg (by omega), mT7 σ.next,
      if_neg (by omega), mT6 σ.next, if_neg (by omega), mT5 σ.next, if_pos rfl]
  · rw [buildCols_mem_frame nvs T10 (σ.next + 1) 0 (σ.next + 2) (by omega)
      (by rw [nT10]; omega)]
    rw [mT10 (σ.next + 2), if_neg (by omega), if_neg (by omega), mT9 (σ.next + 2),
      if_neg (by omega), mT8 (σ.next + 2), if_neg (by omega), mT7 (σ.next + 2),
      if_pos rfl]
  · rw [buildCols_mem_frame nvs T10 (σ.next + 1) 0 (σ.next + 3) (by omega)
      (by rw [nT10]; omega)]
    rw [mT10 (σ.next + 3), if_pos rfl]
  · rw [buildCols_mem_frame nvs T10 (σ.next + 1) 0 (σ.next + 4) (by omega)
      (by rw [nT10]; omega)]
    rw [mT10 (σ.next + 4), if_neg (by omega), if_neg (by omega), mT9 (σ.next + 4),
      if_neg (by omega), mT8 (σ.next + 4), if_pos rfl]
  · rw [buildCols_mem_frame nvs T10 (σ.next + 1) 0 (σ.next + 5) (by omega)
      (by rw [nT10]; omega)]
    rw [mT10 (σ.next + 5), if_neg (by omega), if_pos rfl]
  · exact hfr2
  · intro j hj
    obtain ⟨ha, hb, hc1, hc2⟩ := hfr3 j hj
    exact ⟨ha, hb, le_trans (by rw [nT10]; omega) hc1,
      le_trans (by rw [nT10]; omega) hc2⟩

theorem transformDomain_filter_eq (σ : Store) (d : ViewDesc) (mn mx : PropVal)
    (hM : Models σ d) (hcne : d.cols ≠ [])
    (hnum : mn.isNum = true ∨ mx.isNum = true)
    (hgt : primGt (resolveMin mn d.catVals) (resolveMax mx d.catVals) = false) :
    transformDomain σ d.dvAddr mn mx
      = ((buildResult σ d.dvAddr d.catsAddr
          ((keptIdxs d.catVals (resolveMin mn d.catVals)
              (resolveMax mx d.catVals)).map fun t => d.catVals.getD t .undefined)
          ((keptIdxs d.catVals (resolveMin mn d.catVals)
              (resolveMax mx d.catVals)).map fun t => d.catObjs.getD t none)
          (d.cols.map fun c => (keptIdxs d.catVals (resolveMin mn d.catVals)
              (resolveMax mx d.catVals)).map fun t => c.vals.getD t .undefined)).1,
        TDRes.view σ.next) := by
  obtain ⟨hdv, hcats, hvals, hcat0, hcv, hco, hcols, hbdv, hbcats, hbvals,
    hbcat0, hbcv, hbco, hbtail, hbcols⟩ := hM
  simp only [transformDomain, hdv, Node.dvCategories, Node.dvValues]
  rw [if_neg (by
    push_neg
    constructor
    · rw [hcats]; simp [Node.arrElems]
    · rw [hvals]; simpa [Node.arrElems, List.length_eq_zero] using hcne)]
  rw [if_neg (by rcases hnum with h | h <;> simp [h])]
  rw [show ((σ.mem d.catsAddr).arrElems.getD 0 0) = d.cat0Addr by
    rw [hcats]; rfl]
  rw [if_neg (by rw [hcat0]; simp [Node.catOrdinal])]
  simp only [hcat0, Node.catValues, Node.catObjects]
  rw [show (σ.mem d.cvAddr).prims = d.catVals by rw [hcv]; rfl]
  rw [if_neg (by rw [hgt]; simp)]
  have hmapeq : ((σ.mem d.valsAddr).arrElems.map fun colA =>
        (keptIdxs d.catVals (resolveMin mn d.catVals)
          (resolveMax mx d.catVals)).map fun t =>
            ((σ.mem ((σ.mem colA).colValuesA)).prims).getD t .undefined)
      = d.cols.map fun c => (keptIdxs d.catVals (resolveMin mn d.catVals)
          (resolveMax mx d.catVals)).map fun t => c.vals.getD t .undefined := by
    rw [hvals]
    simp only [Node.arrElems, List.map_map]
    apply List.map_congr_left
    intro c hc
    obtain ⟨h1, h2⟩ := hcols c hc
    simp only [Function.comp_apply, h1, Node.colValuesA, h2, Node.prims]
  rw [show (σ.mem d.coAddr).objs = d.catObjs by rw [hco]; rfl]
  rw [hmapeq, buildResult_snd]

/-- C1 (amended): on the filtering path (non-empty categories and values,
at least one numeric bound, non-ordinal category type, category values and
per-category objects present, and resolved min at most max after
defaulting), transformDomain returns a new data view whose first category
column holds exactly the input category values at the indices within the
inclusive resolved range, in original order (so the output category
sequence is the in-range filter of the input, an order-preserving
subsequence), whose category objects are the input objects restricted to
the same kept index set, and each of whose value columns holds the
corresponding input column's entries restricted to the same kept index
set. -/
theorem transformDomain_filters_in_range (σ : Store) (d : ViewDesc) (mn mx : PropVal)
    (hM : Models σ d) (hcne : d.cols ≠ [])
    (hnum : mn.isNum = true ∨ mx.isNum = true)
    (hgt : primGt (resolveMin mn d.catVals) (resolveMax mx d.catVals) = false) :
    ∃ fr : List (Nat × Nat),
      (transformDomain σ d.dvAddr mn mx).2 = TDRes.view σ.next ∧
      (transformDomain σ d.dvAddr mn mx).1.mem σ.next
        = .dv (some (σ.next + 2)) (some (σ.next + 1)) d.dvOther ∧
      (transformDomain σ d.dvAddr mn mx).1.mem (σ.next + 3)
        = .catCol false (some (σ.next + 4)) (some (σ.next + 5)) d.cat0Other ∧
      (transformDomain σ d.dvAddr mn mx).1.mem (σ.next + 4)
        = .primArr (d.catVals.filter
            (keepPrim (resolveMin mn d.catVals) (resolveMax mx d.catVals))) ∧
      (d.catVals.filter
          (keepPrim (resolveMin mn d.catVals) (resolveMax mx d.catVals))).Sublist
        d.catVals ∧
      (transformDomain σ d.dvAddr mn mx).1.mem (σ.next + 5)
        = .objArr ((keptIdxs d.catVals (resolveMin mn d.catVals)
            (resolveMax mx d.catVals)).map fun t => d.catObjs.getD t none) ∧
      (transformDomain σ d.dvAddr mn mx).1.mem (σ.next + 1)
        = .refArr (fr.map Prod.fst) d.valsOther ∧
      fr.length = d.cols.length ∧
      (∀ j, j < d.cols.length →
        (transformDomain σ d.dvAddr mn mx).1.mem ((fr.getD j (0, 0)).1)
          = .valCol ((fr.getD j (0, 0)).2) ((d.cols.getD j ⟨0, 0, [], 0⟩).other) ∧
        (transformDomain σ d.dvAddr mn mx).1.mem ((fr.getD j (0, 0)).2)
          = .primArr ((keptIdxs d.catVals (resolveMin mn d.catVals)
              (resolveMax mx d.catVals)).map fun t =>
                ((d.cols.getD j ⟨0, 0, [], 0⟩).vals).getD t .undefined)) := by
  have heq := transformDomain_filter_eq σ d mn mx hM hcne hnum hgt
  obtain ⟨fr, hfr1, hm0, hm2, hm3, hm4, hm5, hm1, hjs⟩ :=
    buildResult_spec σ d
      ((keptIdxs d.catVals (resolveMin mn d.catVals)
          (resolveMax mx d.catVals)).map fun t => d.catVals.getD t .undefined)
      ((keptIdxs d.catVals (resolveMin mn d.catVals)
          (resolveMax mx d.catVals)).map fun t => d.catObjs.getD t none)
      (d.cols.map fun c => (keptIdxs d.catVals (resolveMin mn d.catVals)
          (resolveMax mx d.catVals)).map fun t => c.vals.getD t .undefined)
      hM (by rw [List.length_map])
  rw [heq]
  refine ⟨fr, rfl, hm0, hm3, ?_, List.filter_sublist d.catVals, hm5, hm1, hfr1, ?_⟩
  · rw [hm4, keptIdxs_map_getD]
  · intro j hj
    obtain ⟨ha, hb, _, _⟩ := hjs j hj
    refine ⟨ha, ?_⟩
    rw [hb, getD_map_of_lt _ d.cols j hj [] ⟨0, 0, [], 0⟩]

/-- Witness for C1 on the concrete filterStore with bounds 2 and 3. -/
theorem transformDomain_filters_in_range_witness :
    ∃ fr : List (Nat × Nat),
      (transformDomain filterStore filterDesc.dvAddr (.num 2) (.num 3)).2
        = TDRes.view filterStore.next ∧
      (transformDomain filterStore filterDesc.dvAddr (.num 2) (.num 3)).1.mem
          filterStore.next
        = .dv (some (filterStore.next + 2)) (some (filterStore.next + 1))
            filterDesc.dvOther ∧
      (transformDomain filterStore filterDesc.dvAddr (.num 2) (.num 3)).1.mem
          (filterStore.next + 3)
        = .catCol false (some (filterStore.next + 4)) (some (filterStore.next + 5))
            filterDesc.cat0Other ∧
      (transformDomain filterStore filterDesc.dvAddr (.num 2) (.num 3)).1.mem
          (filterStore.next + 4)
        = .primArr (filterDesc.catVals.filter
            (keepPrim (resolveMin (.num 2) filterDesc.catVals)
              (resolveMax (.num 3) filterDesc.catVals))) ∧
      (filterDesc.catVals.filter
          (keepPrim (resolveMin (.num 2) filterDesc.catVals)
            (resolveMax (.num 3) filterDesc.catVals))).Sublist filterDesc.catVals ∧
      (transformDomain filterStore filterDesc.dvAddr (.num 2) (.num 3)).1.mem
          (filterStore.next + 5)
        = .objArr ((keptIdxs filterDesc.catVals
            (resolveMin (.num 2) filterDesc.catVals)
            (resolveMax (.num 3) filterDesc.catVals)).map fun t =>
              filterDesc.catObjs.getD t none) ∧
      (transformDomain filterStore filterDesc.dvAddr (.num 2) (.num 3)).1.mem
          (filterStore.next + 1)
        = .refArr (fr.map Prod.fst) filterDesc.valsOther ∧
      fr.length = filterDesc.cols.length ∧
      (∀ j, j < filterDesc.cols.length →
        (transformDomain filterStore filterDesc.dvAddr (.num 2) (.num 3)).1.mem
            ((fr.getD j (0, 0)).1)
          = .valCol ((fr.getD j (0, 0)).2)
              ((filterDesc.cols.getD j ⟨0, 0, [], 0⟩).other) ∧
        (transformDomain filterStore filterDesc.dvAddr (.num 2) (.num 3)).1.mem
            ((fr.getD j (0, 0)).2)
          = .primArr ((keptIdxs filterDesc.catVals
              (resolveMin (.num 2) filterDesc.catVals)
              (resolveMax (.num 3) filterDesc.catVals)).map fun t =>
                ((filterDesc.cols.getD j ⟨0, 0, [], 0⟩).vals).getD t .undefined)) :=
  transformDomain_filters_in_range filterStore filterDesc (.num 2) (.num 3)
    (by unfold Models; with_unfolding_all decide) (by with_unfolding_all decide)
    (Or.inl rfl) (by with_unfolding_all decide)

/-- C8: whenever transformDomain performs filtering, in the returned data
view the values array of every value column has the same length as the
values array of the first category column. -/
theorem transformDomain_parallel_lengths (σ : Store) (d : ViewDesc) (mn mx : PropVal)
    (hM : Models σ d) (hcne : d.cols ≠ [])
    (hnum : mn.isNum = true ∨ mx.isNum = true)
    (hgt : primGt (resolveMin mn d.catVals) (resolveMax mx d.catVals) = false) :
    ∃ (fr : List (Nat × Nat)) (cv : List Prim),
      (transformDomain σ d.dvAddr mn mx).2 = TDRes.view σ.next ∧
      (transformDomain σ d.dvAddr mn mx).1.mem σ.next
        = .dv (some (σ.next + 2)) (some (σ.next + 1)) d.dvOther ∧
      (transformDomain σ d.dvAddr mn mx).1.mem (σ.next + 3)
        = .catCol false (some (σ.next + 4)) (some (σ.next + 5)) d.cat0Other ∧
      (transformDomain σ d.dvAddr mn mx).1.mem (σ.next + 4) = .primArr cv ∧
      (transformDomain σ d.dvAddr mn mx).1.mem (σ.next + 1)
        = .refArr (fr.map Prod.fst) d.valsOther ∧
      fr.length = d.cols.length ∧
      (∀ j, j < d.cols.length → ∃ vj : List Prim,
        (transformDomain σ d.dvAddr mn mx).1.mem ((fr.getD j (0, 0)).2)
          = .primArr vj ∧ vj.length = cv.length) := by
  have heq := transformDomain_filter_eq σ d mn mx hM hcne hnum hgt
  obtain ⟨fr, hfr1, hm0, hm2, hm3, hm4, hm5, hm1, hjs⟩ :=
    buildResult_spec σ d
      ((keptIdxs d.catVals (resolveMin mn d.catVals)
          (resolveMax mx d.catVals)).map fun t => d.catVals.getD t .undefined)
      ((keptIdxs d.catVals (resolveMin mn d.catVals)
          (resolveMax mx d.catVals)).map fun t => d.catObjs.getD t none)
      (d.cols.map fun c => (keptIdxs d.catVals (resolveMin mn d.catVals)
          (resolveMax mx d.catVals)).map fun t => c.vals.getD t .undefined)
      hM (by rw [List.length_map])
  rw [heq]
  refine ⟨fr, (keptIdxs d.catVals (resolveMin mn d.catVals)
      (resolveMax mx d.catVals)).map fun t => d.catVals.getD t .undefined,
    rfl, hm0, hm3, hm4, hm1, hfr1, ?_⟩
  intro j hj
  obtain ⟨_, hb, _, _⟩ := hjs j hj
  refine ⟨(d.cols.map fun c => (keptIdxs d.catVals (resolveMin mn d.catVals)
      (resolveMax mx d.catVals)).map fun t => c.vals.getD t .undefined).getD j [],
    ?_, ?_⟩
  · exact hb
  · rw [getD_map_of_lt _ d.cols j hj [] ⟨0, 0, [], 0⟩, List.length_map,
      List.length_map]

/-- Witness for C8 on the concrete filterStore with bounds 2 and 3. -/
theorem transformDomain_parallel_lengths_witness :
    ∃ (fr : List (Nat × Nat)) (cv : List Prim),
      (transformDomain filterStore filterDesc.dvAddr (.num 2) (.num 3)).2
        = TDRes.view filterStore.next ∧
      (transformDomain filterStore filterDesc.dvAddr (.num 2) (.num 3)).1.mem
          filterStore.next
        = .dv (some (filterStore.next + 2)) (some (filterStore.next + 1))
            filterDesc.dvOther ∧
      (transformDomain filterStore filterDesc.dvAddr (.num 2) (.num 3)).1.mem
          (filterStore.next + 3)
        = .catCol false (some (filterStore.next + 4)) (some (filterStore.next + 5))
            filterDesc.cat0Other ∧
      (transformDomain filterStore filterDesc.dvAddr (.num 2) (.num 3)).1.mem
          (filterStore.next + 4) = .primArr cv ∧
      (transformDomain filterStore filterDesc.dvAddr (.num 2) (.num 3)).1.mem
          (filterStore.next + 1)
        = .refArr (fr.map Prod.fst) filterDesc.valsOther ∧
      fr.length = filterDesc.cols.length ∧
      (∀ j, j < filterDesc.cols.length → ∃ vj : List Prim,
        (transformDomain filterStore filterDesc.dvAddr (.num 2) (.num 3)).1.mem
            ((fr.getD j (0, 0)).2)
          = .primArr vj ∧ vj.length = cv.length) :=
  transformDomain_parallel_lengths filterStore filterDesc (.num 2) (.num 3)
    (by unfold Models; with_unfolding_all decide) (by with_unfolding_all decide)
    (Or.inl rfl) (by with_unfolding_all decide)

/-- C10: transformDomain filters only the first category column: in a
filtered result the categories array is the freshly derived first column
followed by exactly the input's remaining category column references, and
every remaining category column is unchanged in the store (so its values
keep their original, unfiltered length). -/
theorem transformDomain_tail_categories_shared (σ : Store) (d : ViewDesc)
    (mn mx : PropVal)
    (hM : Models σ d) (hcne : d.cols ≠ [])
    (hnum : mn.isNum = true ∨ mx.isNum = true)
    (hgt : primGt (resolveMin mn d.catVals) (resolveMax mx d.catVals) = false) :
    (transformDomain σ d.dvAddr mn mx).2 = TDRes.view σ.next ∧
    (transformDomain σ d.dvAddr mn mx).1.mem σ.next
      = .dv (some (σ.next + 2)) (some (σ.next + 1)) d.dvOther ∧
    (transformDomain σ d.dvAddr mn mx).1.mem (σ.next + 2)
      = .refArr ((σ.next + 3) :: d.catTail) d.catsOther ∧
    (∀ a ∈ d.catTail, (transformDomain σ d.dvAddr mn mx).1.mem a = σ.mem a) := by
  have heq := transformDomain_filter_eq σ d mn mx hM hcne hnum hgt
  obtain ⟨fr, hfr1, hm0, hm2, hm3, hm4, hm5, hm1, hjs⟩ :=
    buildResult_spec σ d
      ((keptIdxs d.catVals (resolveMin mn d.catVals)
          (resolveMax mx d.catVals)).map fun t => d.catVals.getD t .undefined)
      ((keptIdxs d.catVals (resolveMin mn d.catVals)
          (resolveMax mx d.catVals)).map fun t => d.catObjs.getD t none)
      (d.cols.map fun c => (keptIdxs d.catVals (resolveMin mn d.catVals)
          (resolveMax mx d.catVals)).map fun t => c.vals.getD t .undefined)
      hM (by rw [List.length_map])
  rw [heq]
  obtain ⟨_, _, _, _, _, _, _, _, _, _, _, _, _, hbtail, _⟩ := hM
  refine ⟨rfl, hm0, hm2, ?_⟩
  intro a ha
  exact buildResult_mem_frame σ _ _ _ _ _ a (hbtail a ha)

/-- Witness for C10 on the concrete filterStore, whose second category
column at address 16 is carried over unchanged. -/
theorem transformDomain_tail_categories_shared_witness :
    (transformDomain filterStore filterDesc.dvAddr (.num 2) (.num 3)).2
      = TDRes.view filterStore.next ∧
    (transformDomain filterStore filterDesc.dvAddr (.num 2) (.num 3)).1.mem
        filterStore.next
      = .dv (some (filterStore.next + 2)) (some (filterStore.next + 1))
          filterDesc.dvOther ∧
    (transformDomain filterStore filterDesc.dvAddr (.num 2) (.num 3)).1.mem
        (filterStore.next + 2)
      = .refArr ((filterStore.next + 3) :: filterDesc.catTail)
          filterDesc.catsOther ∧
    (∀ a ∈ filterDesc.catTail,
      (transformDomain filterStore filterDesc.dvAddr (.num 2) (.num 3)).1.mem a
        = filterStore.mem a) :=
  transformDomain_tail_categories_shared filterStore filterDesc (.num 2) (.num 3)
    (by unfold Models; with_unfolding_all decide) (by with_unfolding_all decide)
    (Or.inl rfl) (by with_unfolding_all decide)

/-- C1 counterexample: a data view with non-empty categories and values,
a numeric bound on both sides, and a non-ordinal category type, whose
per-category objects array is absent: transformDomain returns the input
unchanged, so the output category values are the full input values [5]
rather than their restriction to the in-range index set, which is empty
for bounds 10..10. -/
theorem transformDomain_filters_claim_counterexample :
    (transformDomain noObjectsStore 0 (.num 10) (.num 10)).2 = TDRes.view 0 ∧
    ((transformDomain noObjectsStore 0 (.num 10) (.num 10)).1).mem 5
      = Node.primArr [Prim.num 5] ∧
    (noObjectsStore.mem ((noObjectsStore.mem 1).arrElems.getD 0 0)).catOrdinal
      = false ∧
    ([Prim.num 5].filter (keepPrim (resolveMin (.num 10) [Prim.num 5])
      (resolveMax (.num 10) [Prim.num 5]))) = [] ∧
    [Prim.num 5] ≠ ([] : List Prim) := by
  with_unfolding_all decide
